import Mathlib

/-!
Shallow embedding of `py_scripts/ML/predict_DPI.py`: the schema compiler
(`load_protocol_definitions`), the packet decoder (`parse_pcap_with_ip`),
the feature aggregator (`extract_aggregated_features`), the segmentation
engine (`segment_stats`) and the DPI synthesizer (`generate_dpi`).

Modelling conventions:
* Python `int` is `Int`; a Python `float` is modelled as the rational it
  denotes (every finite IEEE float is a rational).  Non-finite floats are
  kept symbolically as their raw bytes; their arithmetic is outside the
  model and conversions on them fail, as `int(nan)` does.
* Python byte strings and decoded text values are lists of byte values
  (`List Nat`); UTF-8 decoding with `errors='ignore'` is modelled as the
  identity on bytes (exact for the ASCII payloads relevant here).
  Schema-level names and type strings are Lean `String`s.
* Python dictionaries are association lists in insertion order with
  replace-on-update semantics (`dinsert` and `List.lookup`).
* Exceptions raised by the Python code (`ZeroDivisionError`,
  `struct.error`, `IndexError`, `TypeError`, `ValueError`) are modelled
  with `Except`/`Option` error values.
* `str.strip()` is modelled by `trimStr`; Python integer-literal
  underscores and the strings `"inf"`/`"nan"` accepted by `float()` are
  outside the model.
-/

namespace DeepScan

/-- Python `str.lower()` (ASCII; the schema's type names are ASCII).
Defined over the character list so that closed decodes evaluate. -/
def lowerStr (s : String) : String := ⟨s.data.map Char.toLower⟩

/-- Python `str.startswith(p)`. -/
def startsWithStr (s p : String) : Bool := p.data.isPrefixOf s.data

/-- Python `s[n:]` on schema strings (`split('array of ', 1)[1]` is the
same as dropping the 9-character prefix when `startswith` held). -/
def dropStr (s : String) (n : Nat) : String := ⟨s.data.drop n⟩

/-- Python `str.strip()`. -/
def trimStr (s : String) : String :=
  ⟨((s.data.dropWhile Char.isWhitespace).reverse.dropWhile Char.isWhitespace).reverse⟩

/-- Python-dict insert: replace the value of an existing key in place,
otherwise append the new binding at the end (insertion order). -/
def dinsert {α : Type} : List (String × α) → String → α → List (String × α)
  | [], k, v => [(k, v)]
  | (k0, v0) :: t, k, v =>
    if k0 = k then (k0, v) :: t else (k0, v0) :: dinsert t k v

/-- Model of `defaultdict(list)` followed by `d[k].append(v)`. -/
def dappend {α : Type} : List (String × List α) → String → α → List (String × List α)
  | [], k, v => [(k, [v])]
  | (k0, vs) :: t, k, v =>
    if k0 = k then (k0, vs ++ [v]) :: t else (k0, vs) :: dappend t k v

/-- Python `round` on a rational: round half to even (banker's rounding). -/
def pyRound (q : ℚ) : Int :=
  let f := ⌊q⌋
  let r := q - (f : ℚ)
  if r < 1 / 2 then f
  else if 1 / 2 < r then f + 1
  else if f % 2 = 0 then f else f + 1

/-- Python `round(x, 3)`: round to three decimal places, half to even. -/
def round3 (q : ℚ) : ℚ := (pyRound (q * 1000) : ℚ) / 1000

/-- Python `int(float)` truncation toward zero. -/
def ratTrunc (q : ℚ) : Int := q.num / (q.den : Int)

/-- Python float floor division `q // n` (the divisor is a positive int here). -/
def floorDivQ (q : ℚ) (n : Int) : ℚ := (⌊q / (n : ℚ)⌋ : ℚ)

/-- ASCII whitespace bytes recognised by `str.strip()` / `int(str)`. -/
def isWsByte (b : Nat) : Bool := b = 32 || b = 9 || b = 10 || b = 13 || b = 11 || b = 12

def isDigitByte (b : Nat) : Bool := 48 ≤ b && b ≤ 57

def stripWsBytes (bs : List Nat) : List Nat :=
  ((bs.dropWhile isWsByte).reverse.dropWhile isWsByte).reverse

def digitsToNat (ds : List Nat) : Nat := ds.foldl (fun a d => a * 10 + (d - 48)) 0

/-- Split off an optional leading `+`/`-` sign byte. -/
def splitSign : List Nat → Bool × List Nat
  | [] => (false, [])
  | c :: t => if c = 45 then (true, t) else if c = 43 then (false, t) else (false, c :: t)

/-- Python `int(s)` on a byte string: optional surrounding whitespace, an
optional sign, then one or more decimal digits. -/
def pyBytesToInt (bs : List Nat) : Option Int :=
  let s := stripWsBytes bs
  let p := splitSign s
  if p.2 ≠ [] ∧ p.2.all isDigitByte then
    some (if p.1 then -(digitsToNat p.2 : Int) else (digitsToNat p.2 : Int))
  else none

/-- Split a byte list at the first `.` (byte 46). -/
def splitDot : List Nat → List Nat × Option (List Nat)
  | [] => ([], none)
  | c :: t =>
    if c = 46 then ([], some t)
    else
      let r := splitDot t
      (c :: r.1, r.2)

/-- Split a byte list at the first `e`/`E` (bytes 101/69). -/
def splitExp : List Nat → List Nat × Option (List Nat)
  | [] => ([], none)
  | c :: t =>
    if c = 101 ∨ c = 69 then ([], some t)
    else
      let r := splitExp t
      (c :: r.1, r.2)

/-- Parse the mantissa of a float literal: digits with at most one dot,
at least one digit overall. -/
def parseMantissa (bs : List Nat) : Option ℚ :=
  let p := splitDot bs
  match p.2 with
  | none => if bs ≠ [] ∧ bs.all isDigitByte then some ((digitsToNat bs : ℚ)) else none
  | some fp =>
    if p.1.all isDigitByte ∧ fp.all isDigitByte ∧ (p.1 ≠ [] ∨ fp ≠ []) then
      some ((digitsToNat p.1 : ℚ) + (digitsToNat fp : ℚ) / (10 : ℚ) ^ fp.length)
    else none

/-- Python `float(s)` on a byte string: sign, mantissa, optional exponent. -/
def pyBytesToFloat (bs : List Nat) : Option ℚ :=
  let s := stripWsBytes bs
  let p := splitSign s
  let me := splitExp p.2
  match parseMantissa me.1 with
  | none => none
  | some m =>
    let signed := if p.1 then -m else m
    match me.2 with
    | none => some signed
    | some ebs =>
      let ep := splitSign ebs
      if ep.2 ≠ [] ∧ ep.2.all isDigitByte then
        some (signed * (10 : ℚ) ^ (if ep.1 then -(digitsToNat ep.2 : Int) else (digitsToNat ep.2 : Int)))
      else none

/-- Big-endian `int.from_bytes`. -/
def beNat (bs : List Nat) : Nat := bs.foldl (fun a b => a * 256 + b % 256) 0

def hexDigitByte (n : Nat) : Nat := if n < 10 then 48 + n else 87 + n

/-- Python `bytes.hex()`: two lowercase hex characters per byte. -/
def hexBytes (bs : List Nat) : List Nat :=
  bs.flatMap (fun b => [hexDigitByte (b % 256 / 16), hexDigitByte (b % 16)])

/-- Python `str.rstrip(chr(0))` on a byte string. -/
def rstripNulls (bs : List Nat) : List Nat :=
  (bs.reverse.dropWhile (fun b => b = 0)).reverse

/-- Binary digits of a natural number, most significant first (empty for 0). -/
def natBinDigits (v : Nat) : List Nat :=
  if h : v = 0 then [] else natBinDigits (v / 2) ++ [v % 2]
decreasing_by exact Nat.div_lt_self (Nat.pos_of_ne_zero h) (by omega)

/-- Python `format(v, '0{w}b')` as a digit list: the binary digits of `v`
(at least one digit) left-padded with zeros to width `w`. -/
def bitsOfNat (w : Nat) (v : Nat) : List Nat :=
  let ds := if v = 0 then [0] else natBinDigits v
  List.replicate (w - ds.length) 0 ++ ds

/-- Python slice `l[a:b]` with int bounds (negative indices count from the
end, out-of-range bounds are clamped). -/
def pySlice (l : List Nat) (a b : Int) : List Nat :=
  let n : Int := l.length
  let a2 := (if a < 0 then max 0 (n + a) else min a n).toNat
  let b2 := (if b < 0 then max 0 (n + b) else min b n).toNat
  (l.take b2).drop a2

/-- A decoded Python value: int, finite float (as a rational), non-finite
float (raw IEEE bytes), byte/text string, bool, or list. -/
inductive PyVal : Type
  | pint (n : Int)
  | pfloat (q : ℚ)
  | pnonfinite (bs : List Nat)
  | pstr (bs : List Nat)
  | pbool (b : Bool)
  | plist (vs : List PyVal)

/-- Python `int(v)`: succeeds on ints, bools, finite floats (truncating)
and integer-literal strings; raises (returns `none`) otherwise. -/
def pyToInt : PyVal → Option Int
  | .pint n => some n
  | .pbool b => some (if b then 1 else 0)
  | .pfloat q => some (ratTrunc q)
  | .pnonfinite _ => none
  | .pstr bs => pyBytesToInt bs
  | .plist _ => none

/-- Python `float(v)`: succeeds on numbers, bools and float-literal
strings; raises (returns `none`) otherwise. -/
def pyFloat : PyVal → Option ℚ
  | .pint n => some (n : ℚ)
  | .pbool b => some (if b then 1 else 0)
  | .pfloat q => some q
  | .pnonfinite _ => none
  | .pstr bs => pyBytesToFloat bs
  | .plist _ => none

/-- Python `v[i]` for the list values produced by the decoder. -/
def pyIndex : PyVal → Nat → Option PyVal
  | .plist vs, i => vs.get? i
  | _, _ => none

/-- Numeric view of a value (ints, bools and finite floats). -/
def pyNumQ : PyVal → Option ℚ
  | .pint n => some (n : ℚ)
  | .pfloat q => some q
  | .pbool b => some (if b then 1 else 0)
  | _ => none

/-- Lexicographic `<` on byte strings (Python string comparison). -/
def lexLtBytes : List Nat → List Nat → Bool
  | [], [] => false
  | [], _ :: _ => true
  | _ :: _, [] => false
  | a :: s, b :: t => if a < b then true else if b < a then false else lexLtBytes s t

/-- Python `a < b` on decoded values: numeric comparison between numbers,
lexicographic between strings, `TypeError` (`none`) otherwise. -/
def pyLtVal (a b : PyVal) : Option Bool :=
  match pyNumQ a, pyNumQ b with
  | some x, some y => some (decide (x < y))
  | _, _ =>
    match a, b with
    | .pstr s, .pstr t => some (lexLtBytes s t)
    | _, _ => none

/-- Python `min` over a nonempty list (first minimum is kept). -/
def pyMinVal : List PyVal → Option PyVal
  | [] => none
  | x :: xs => xs.foldlM (fun acc y => (pyLtVal y acc).map (fun lt => if lt then y else acc)) x

/-- Python `max` over a nonempty list (first maximum is kept). -/
def pyMaxVal : List PyVal → Option PyVal
  | [] => none
  | x :: xs => xs.foldlM (fun acc y => (pyLtVal acc y).map (fun lt => if lt then y else acc)) x

/-- Python `sum` over a list of numbers (`TypeError` on non-numbers). -/
def pySumQ (vs : List PyVal) : Option ℚ :=
  vs.foldlM (fun a v => (pyNumQ v).map (a + ·)) 0

/-- One flattened schema entry, as built by `load_protocol_definitions`. -/
structure FieldSpec where
  name : String
  size : Int
  type : String
  size_field : String
  num_elements : Int
  is_bitfield : Bool
deriving DecidableEq, Repr

/-- One decoded field occurrence, as appended to `records` by
`parse_pcap_with_ip` (dict keys present only on some paths are `Option`s). -/
structure FieldRec where
  field_name : String
  size : Int
  value : PyVal
  field_type : String
  size_defining_field : Option String := none
  bitfields_count : Option Int := none
  bit_vector : Option (List Nat) := none
  num_elements : Option Int := none

inductive DecodeErr : Type
  | zeroDivision
  | structError
  | formatError
deriving DecidableEq, Repr

/-- IEEE binary32 read big-endian from 4 bytes (`struct.unpack('!f', _)`). -/
def decodeF32 (bs : List Nat) : PyVal :=
  let b := beNat bs
  let s : Nat := b / 2 ^ 31 % 2
  let e : Nat := b / 2 ^ 23 % 2 ^ 8
  let f : Nat := b % 2 ^ 23
  if e = 255 then .pnonfinite bs
  else
    let mag : ℚ :=
      if e = 0 then (f : ℚ) * (2 : ℚ) ^ (-(149 : Int))
      else ((2 ^ 23 + f : Nat) : ℚ) * (2 : ℚ) ^ ((e : Int) - 150)
    .pfloat (if s = 1 then -mag else mag)

/-- IEEE binary64 read big-endian from 8 bytes (`struct.unpack('!d', _)`). -/
def decodeF64 (bs : List Nat) : PyVal :=
  let b := beNat bs
  let s : Nat := b / 2 ^ 63 % 2
  let e : Nat := b / 2 ^ 52 % 2 ^ 11
  let f : Nat := b % 2 ^ 52
  if e = 2047 then .pnonfinite bs
  else
    let mag : ℚ :=
      if e = 0 then (f : ℚ) * (2 : ℚ) ^ (-(1074 : Int))
      else ((2 ^ 52 + f : Nat) : ℚ) * (2 : ℚ) ^ ((e : Int) - 1075)
    .pfloat (if s = 1 then -mag else mag)

/-- Scalar decode by lowered type name (source lines 302-315).  A float or
double chunk of the wrong length raises `struct.error`. -/
def decodeScalar (lt : String) (chunk : List Nat) : Except DecodeErr PyVal :=
  if lt = "int" then .ok (.pint (beNat chunk))
  else if lt = "float" then
    (if chunk.length = 4 then .ok (decodeF32 chunk) else .error .structError)
  else if lt = "double" then
    (if chunk.length = 8 then .ok (decodeF64 chunk) else .error .structError)
  else if lt = "char" then .ok (.pstr (rstripNulls chunk))
  else if lt = "bool" then .ok (.pbool (beNat chunk != 0))
  else .ok (.pstr (hexBytes chunk))

/-- Array-element decode by base type (source lines 269-278; no bool case,
unknown bases fall back to hex). -/
def decodeElem (base : String) (chunk : List Nat) : Except DecodeErr PyVal :=
  let lb := lowerStr base
  if lb = "int" then .ok (.pint (beNat chunk))
  else if lb = "float" then
    (if chunk.length = 4 then .ok (decodeF32 chunk) else .error .structError)
  else if lb = "double" then
    (if chunk.length = 8 then .ok (decodeF64 chunk) else .error .structError)
  else if lb = "char" then .ok (.pstr (rstripNulls chunk))
  else .ok (.pstr (hexBytes chunk))

/-- Sum of the non-zero declared sizes of the schema entries after the
current one (source lines 241-245). -/
def remainingAfter (rest : List FieldSpec) : Int :=
  rest.foldl (fun acc r => if r.size ≠ 0 then acc + r.size else acc) 0

/-- Resolution of a field's byte size (source lines 240-254): a declared
non-zero size is used as is; a zero size is dynamic and resolves to the
size-field value when it is present and converts to `int`, else to
`payloadLength - offset - remaining`. -/
def resolveFieldSize (r : FieldSpec) (rest : List FieldSpec) (payloadLen offset : Int)
    (data : List (String × PyVal)) : Int :=
  if r.size = 0 then
    let dyn := payloadLen - offset - remainingAfter rest
    if r.size_field ≠ "" then
      match data.lookup r.size_field with
      | some v => (pyToInt v).getD dyn
      | none => dyn
    else dyn
  else r.size

/-- Array decode (source lines 261-279): element size `fsize // ne` with no
guard, so `ne == 0` raises `ZeroDivisionError`. -/
def decodeArray (base : String) (ne : Int) (payload : List Nat) (offset fsize : Int) :
    Except DecodeErr (List PyVal) :=
  if ne = 0 then .error .zeroDivision
  else
    let elemSz := Int.fdiv fsize ne
    (List.range ne.toNat).mapM (fun (i : Nat) =>
      let start := offset + (i : Int) * elemSz
      decodeElem base (pySlice payload start (start + elemSz)))

/-- The decoder's per-packet field loop (source lines 232-330): walks the
schema in order, resolving sizes, stopping with the records collected so
far when the bounds check fails. -/
def decodeLoop (payload : List Nat) : List FieldSpec → Int → List (String × PyVal) →
    List FieldRec → Except DecodeErr (List FieldRec)
  | [], _, _, recs => .ok recs
  | r :: rs, offset, data, recs =>
    let fsize := resolveFieldSize r rs (payload.length : Int) offset data
    if offset + fsize > (payload.length : Int) then .ok recs
    else if startsWithStr r.type "array of " then
      match decodeArray (dropStr r.type 9) r.num_elements payload offset fsize with
      | .error e => .error e
      | .ok vals =>
        decodeLoop payload rs (offset + fsize) (dinsert data r.name (.plist vals))
          (recs ++ [{ field_name := r.name, size := fsize, value := .plist vals,
                      field_type := r.type, num_elements := some r.num_elements }])
    else if r.is_bitfield then
      (if fsize * 8 < 0 then .error .formatError
       else
        let bits := bitsOfNat (fsize * 8).toNat (beNat (pySlice payload offset (offset + fsize)))
        decodeLoop payload rs (offset + fsize)
          (dinsert data r.name (.plist (bits.map (fun b => .pint (b : Int)))))
          (recs ++ [{ field_name := r.name, size := fsize,
                      value := .plist (bits.map (fun b => .pint (b : Int))),
                      field_type := r.type, size_defining_field := some r.size_field,
                      bitfields_count := some (bits.sum : Int), bit_vector := some bits }]))
    else
      match decodeScalar (lowerStr r.type) (pySlice payload offset (offset + fsize)) with
      | .error e => .error e
      | .ok v =>
        decodeLoop payload rs (offset + fsize) (dinsert data r.name v)
          (recs ++ [{ field_name := r.name, size := fsize, value := v, field_type := r.type,
                      size_defining_field := some r.size_field, bitfields_count := none }])

/-- Decode of one packet payload against the schema. -/
def decodeFields (schema : List FieldSpec) (payload : List Nat) :
    Except DecodeErr (List FieldRec) :=
  decodeLoop payload schema 0 [] []

/-- The per-capture loop of `parse_pcap_with_ip` over the already UDP-port
filtered `(source ip, payload)` pairs: a packet joins its endpoint's series
only when it produced at least one record (source lines 332-333). -/
def parsePcapWithIp (schema : List FieldSpec) (pkts : List (String × List Nat)) :
    Except DecodeErr (List (String × List (List FieldRec))) :=
  pkts.foldlM (fun acc p =>
    match decodeFields schema p.2 with
    | .error e => .error e
    | .ok recs => .ok (if recs.isEmpty then acc else dappend acc p.1 recs)) []

/-- A custom-type catalog entry as returned by `load_custom_types`. -/
structure CustomType where
  fields : List FieldSpec
  total_size : Int

inductive CompErr : Type
  | badHeader
  | badLine (toks : List String)
  | badInt (tok : String)
deriving DecidableEq, Repr

/-- Python `int(token)` on a Lean string. -/
def parseIntTok (s : String) : Option Int :=
  pyBytesToInt (s.toList.map Char.toNat)

/-- Python `str.split()` (split on whitespace runs, drop empties). -/
def splitWs (s : String) : List String :=
  ((s.data.splitOnP Char.isWhitespace).map (fun cs => (⟨cs⟩ : String))).filter
    (fun t => t ≠ "")

/-- One line of the protocol TXT (source lines 118-193): the five
recognised token shapes, in source priority order; any other shape is a
fatal format error and a non-integer size/count token raises `ValueError`. -/
def compileLine (custom : List (String × CustomType)) (toks : List String) :
    Except CompErr (List FieldSpec) :=
  match toks with
  | [outer, sz, typ] =>
    match custom.lookup typ with
    | some ct =>
      .ok (ct.fields.map (fun sub => { sub with name := outer ++ "." ++ sub.name }))
    | none =>
      match parseIntTok sz with
      | none => .error (.badInt sz)
      | some n =>
        .ok [{ name := outer, size := n, type := typ, size_field := "", num_elements := 0,
               is_bitfield := lowerStr typ = "bit" || lowerStr typ = "bitfield" }]
  | [nm, sz, arr, base, ne] =>
    if lowerStr arr = "array" then
      match custom.lookup base with
      | some ct =>
        match parseIntTok sz, parseIntTok ne with
        | none, _ => .error (.badInt sz)
        | _, none => .error (.badInt ne)
        | some _total, some count =>
          .ok ((List.range count.toNat).flatMap (fun i =>
            ct.fields.map (fun sub =>
              { sub with name := nm ++ "[" ++ toString i ++ "]." ++ sub.name })))
      | none =>
        match parseIntTok sz, parseIntTok ne with
        | none, _ => .error (.badInt sz)
        | _, none => .error (.badInt ne)
        | some n, some cnt =>
          .ok [{ name := nm, size := n, type := "array of " ++ base, size_field := "",
                 num_elements := cnt, is_bitfield := false }]
    else .error (.badLine toks)
  | [nm, sz, typ, sf] =>
    match parseIntTok sz with
    | none => .error (.badInt sz)
    | some n =>
      .ok [{ name := nm, size := n, type := typ, size_field := sf, num_elements := 0,
             is_bitfield := lowerStr typ = "bit" || lowerStr typ = "bitfield" }]
  | _ => .error (.badLine toks)

/-- `load_protocol_definitions` (source lines 95-198) over the pre-read
text lines: strip and drop blank lines, parse the declared count from the
first line, then compile every following line.  The declared-count
comparison is a print-only warning and is not modelled. -/
def loadProtocolDefinitions (custom : List (String × CustomType)) (fileLines : List String) :
    Except CompErr (List FieldSpec) :=
  let lines := (fileLines.map trimStr).filter (fun l => l ≠ "")
  match lines with
  | [] => .error .badHeader
  | h :: t =>
    match parseIntTok h with
    | none => .error .badHeader
    | some _declared =>
      match t.mapM (fun line => compileLine custom (splitWs line)) with
      | .error e => .error e
      | .ok rows => .ok rows.flatten

/-- The `name -> size_field` table `protocol_mapping` (source line 207):
`dict(zip(...))`, so a repeated name keeps its last size field. -/
def protocolMapping (schema : List FieldSpec) : List (String × String) :=
  schema.foldl (fun acc r => dinsert acc r.name r.size_field) []

/-- The numeric type names used to pick the clustering axis
(source line 406; note `short` is absent). -/
def numericSegTypes : List String := ["int", "float", "double", "long"]

/-- The clustering axis of `segment_stats` (source lines 405-416): parsed
values for a numeric first occurrence type unless parsing fails or all
parsed values are zero; byte sizes otherwise. -/
def segAxis (stats : List FieldRec) : List ℚ :=
  match stats with
  | [] => []
  | s0 :: _ =>
    let sizes := stats.map (fun s => (s.size : ℚ))
    if lowerStr s0.field_type ∈ numericSegTypes then
      let numeric_values := (stats.mapM (fun s => pyFloat s.value)).getD sizes
      if numeric_values.all (fun q => q == 0) then sizes else numeric_values
    else sizes

/-- The stable index order used to model `np.argsort`. -/
def idxRel (values : List ℚ) (i j : Nat) : Prop :=
  values.getD i 0 < values.getD j 0 ∨ (values.getD i 0 = values.getD j 0 ∧ i ≤ j)

instance (values : List ℚ) : DecidableRel (idxRel values) := fun i j => by
  unfold idxRel; infer_instance

instance (values : List ℚ) : IsTotal Nat (idxRel values) := by
  constructor
  intro i j
  rcases lt_trichotomy (values.getD i 0) (values.getD j 0) with h | h | h
  · exact Or.inl (Or.inl h)
  · rcases Nat.le_total i j with hij | hij
    · exact Or.inl (Or.inr ⟨h, hij⟩)
    · exact Or.inr (Or.inr ⟨h.symm, hij⟩)
  · exact Or.inr (Or.inl h)

instance (values : List ℚ) : IsTrans Nat (idxRel values) := by
  constructor
  intro i j k hij hjk
  rcases hij with h1 | ⟨e1, l1⟩
  · rcases hjk with h2 | ⟨e2, _⟩
    · exact Or.inl (h1.trans h2)
    · exact Or.inl (e2 ▸ h1)
  · rcases hjk with h2 | ⟨e2, l2⟩
    · exact Or.inl (e1 ▸ h2)
    · exact Or.inr ⟨e1.trans e2, l1.trans l2⟩

/-- `np.argsort` over the axis, modelled with a stable sort of the index
range (NumPy's default quicksort only differs on the order of tied
indices, which no claim depends on). -/
def argsortIdx (values : List ℚ) : List Nat :=
  List.insertionSort (idxRel values) (List.range values.length)

/-- `np.diff`: consecutive differences. -/
def diffsOf (l : List ℚ) : List ℚ := List.zipWith (fun a b => b - a) l l.tail

def argmaxGo (i best : Nat) (bv : ℚ) : List ℚ → Nat
  | [] => best
  | x :: xs => if bv < x then argmaxGo (i + 1) i x xs else argmaxGo (i + 1) best bv xs

/-- `np.argmax`: index of the first maximum (0 on an empty list, where
NumPy would raise). -/
def argmaxIdx : List ℚ → Nat
  | [] => 0
  | x :: xs => argmaxGo 1 0 x xs

def segSorted (stats : List FieldRec) : List Nat := argsortIdx (segAxis stats)

def segSortedVals (stats : List FieldRec) : List ℚ :=
  (segSorted stats).map (fun i => (segAxis stats).getD i 0)

def segDiffs (stats : List FieldRec) : List ℚ := diffsOf (segSortedVals stats)

def segRange (stats : List FieldRec) : ℚ :=
  (segSortedVals stats).getLast?.getD 0 - (segSortedVals stats).head?.getD 0

def segGap (stats : List FieldRec) : ℚ :=
  (segDiffs stats).getD (argmaxIdx (segDiffs stats)) 0

def segCut (stats : List FieldRec) : Nat := argmaxIdx (segDiffs stats) + 1

def segOne (stats : List FieldRec) : List Nat := (segSorted stats).take (segCut stats)

def segTwo (stats : List FieldRec) : List Nat := (segSorted stats).drop (segCut stats)

/-- `main_indices` (source lines 432-437): the larger split group, the
first one on ties. -/
def segMain (stats : List FieldRec) : List Nat :=
  if (segTwo stats).length ≤ (segOne stats).length then segOne stats else segTwo stats

def segOutlier (stats : List FieldRec) : List Nat :=
  if (segTwo stats).length ≤ (segOne stats).length then segTwo stats else segOne stats

def segPct (stats : List FieldRec) : Int :=
  pyRound (((segMain stats).length : ℚ) / (stats.length : ℚ) * 100)

def segLabel (stats : List FieldRec) : String := toString (segPct stats) ++ "%"

/-- `segment_stats` (source lines 404-442).  `none` models the
`IndexError` that `stats[0]` raises on an empty occurrence list. -/
def segment_stats (stats : List FieldRec) : Option (List (String × List Nat)) :=
  match stats with
  | [] => none
  | _ :: _ =>
    if (segAxis stats).length < 2 then some [("100%", List.range stats.length)]
    else if segRange stats = 0 then some [("100%", List.range stats.length)]
    else if segGap stats < 1 / 100 * segRange stats then
      some [("100%", List.range stats.length)]
    else
      some (dinsert (dinsert [] (segLabel stats) (segMain stats)) "100%"
        (List.range stats.length))

/-- The aggregated feature record of `extract_aggregated_features`
(source lines 340-385).  The model consumes the standard deviations
`sqrt var_size` / `sqrt var_value`, which are irrational; since the
predictive model is an uninterpreted oracle parameter, the features carry
the variances instead. -/
structure Features where
  count : ℚ
  mean_size : ℚ
  var_size : ℚ
  min_size : ℚ
  max_size : ℚ
  mean_value : ℚ
  var_value : ℚ
  min_value : ℚ
  max_value : ℚ
deriving DecidableEq, Repr

def meanQ (l : List ℚ) : ℚ := l.sum / (l.length : ℚ)

def varQ (l : List ℚ) : ℚ := meanQ (l.map (fun x => (x - meanQ l) ^ 2))

def listMinQ : List ℚ → ℚ
  | [] => 0
  | x :: xs => xs.foldl min x

def listMaxQ : List ℚ → ℚ
  | [] => 0
  | x :: xs => xs.foldl max x

/-- The numeric-value stream of the aggregator (source lines 351-371):
every element of a list value coerced to float (0.0 on failure), scalar
values coerced only for the numeric declared types, 0.0 otherwise. -/
def numericValsOf (stats : List FieldRec) : List ℚ :=
  stats.flatMap (fun s =>
    match s.value with
    | .plist vs => vs.map (fun e => (pyFloat e).getD 0)
    | v =>
      if lowerStr s.field_type ∈ ["int", "float", "double", "long", "short"] then
        [(pyFloat v).getD 0]
      else [0])

def extract_aggregated_features (stats : List FieldRec) : Features :=
  let sizes := stats.map (fun s => (s.size : ℚ))
  let nv := numericValsOf stats
  { count := (stats.length : ℚ)
    mean_size := if sizes.isEmpty then 0 else meanQ sizes
    var_size := if sizes.isEmpty then 0 else varQ sizes
    min_size := if sizes.isEmpty then 0 else listMinQ sizes
    max_size := if sizes.isEmpty then 0 else listMaxQ sizes
    mean_value := if nv.isEmpty then 0 else meanQ nv
    var_value := if nv.isEmpty then 0 else varQ nv
    min_value := if nv.isEmpty then 0 else listMinQ nv
    max_value := if nv.isEmpty then 0 else listMaxQ nv }

/-- One response of the external predictive model for one feature vector:
two class-score rows and five regression outputs, where `none` models a
not-a-number regression output. -/
structure Pred where
  is_dynamic : List ℚ
  min_size : Option ℚ
  max_size : Option ℚ
  min_value : Option ℚ
  max_value : Option ℚ
  field_type : List ℚ
  bit_count : Option ℚ

def strMin (l : List String) : String :=
  match l with
  | [] => ""
  | x :: xs => xs.foldl (fun a b => if b < a then b else a) x

/-- `pandas.Series.mode()[0]`: the most frequent element; on ties the
lexicographically smallest (mode results are sorted). -/
def pandasMode (l : List String) : String :=
  let maxCnt := (l.map (fun x => l.count x)).foldl max 0
  strMin (l.filter (fun x => l.count x == maxCnt))

/-- Scalar-or-list shape of the final size/value entries of a descriptor. -/
inductive NumOrList : Type
  | num (q : ℚ)
  | list (l : List ℚ)
deriving DecidableEq, Repr

/-- The final synthesized field descriptor `field_dpi`
(source lines 528-537 after the overrides). -/
structure FieldDpi where
  is_dynamic_array : Bool
  min_size : NumOrList
  max_size : NumOrList
  min_value : Option NumOrList
  max_value : Option NumOrList
  size_defining_field : Option String
  field_type : String
  bitfields_count : Option Int
deriving DecidableEq, Repr

def dfltDpi : FieldDpi :=
  { is_dynamic_array := false, min_size := .num 0, max_size := .num 0, min_value := none,
    max_value := none, size_defining_field := none, field_type := "", bitfields_count := none }

inductive SynthErr : Type
  | indexError
  | typeError
  | valueError
  | emptyStats
  | keyError
deriving DecidableEq, Repr

def roundNL : NumOrList → NumOrList
  | .num q => .num (round3 q)
  | .list l => .list (l.map round3)

/-- `is_dynamic_array_pred` after the overrides (source lines 483-491). -/
def isDynOf (schema : List FieldSpec) (fn : String) (alt : List FieldRec) (pred : Pred) : Bool :=
  let model := argmaxIdx pred.is_dynamic != 0
  match (protocolMapping schema).lookup fn with
  | some s =>
    if trimStr s ≠ "" then true
    else if (extract_aggregated_features alt).min_size = (extract_aggregated_features alt).max_size
      then false else model
  | none =>
    if (extract_aggregated_features alt).min_size = (extract_aggregated_features alt).max_size
      then false else model

def scalarMinSize (alt : List FieldRec) (pred : Pred) : ℚ :=
  pred.min_size.getD (extract_aggregated_features alt).min_size

def scalarMaxSize (alt : List FieldRec) (pred : Pred) : ℚ :=
  pred.max_size.getD (extract_aggregated_features alt).max_size

def scalarMinValue (alt : List FieldRec) (pred : Pred) : ℚ :=
  pred.min_value.getD (extract_aggregated_features alt).min_value

def scalarMaxValue (alt : List FieldRec) (pred : Pred) : ℚ :=
  pred.max_value.getD (extract_aggregated_features alt).max_value

/-- `aggregated_field_type` (source lines 509-510): the mode of the
declared types over the FULL occurrence list `stats`, `"unknown"` when
empty. -/
def aggTypeOf (stats : List FieldRec) : String :=
  let l := stats.map (fun s => s.field_type)
  if l.isEmpty then "unknown" else pandasMode l

/-- `field_type_pred` after the mode override (source lines 507-512). -/
def finalTypeOf (le : Nat → String) (stats : List FieldRec) (pred : Pred) : String :=
  if aggTypeOf stats ≠ "bitfield" then aggTypeOf stats
  else le (argmaxIdx pred.field_type)

def bitVecOf (s : FieldRec) : Option (List PyVal) :=
  match s.value with
  | .plist vs => some vs
  | _ => none

def sumQE (vs : List PyVal) : Except SynthErr ℚ :=
  match pySumQ vs with
  | some q => .ok q
  | none => .error .typeError

/-- `aggregated_bit_count` (source lines 514-521): only for an observed
bitfield mode; the rounded model output, falling back to the rounded mean
popcount of the segment's list-valued records; `np.mean` of an empty
selection is NaN and `int(nan)` raises. -/
def bitCountOf (stats alt : List FieldRec) (pred : Pred) : Except SynthErr (Option Int) :=
  if lowerStr (aggTypeOf stats) = "bitfield" then
    match pred.bit_count with
    | some q => .ok (some (pyRound q))
    | none =>
      let sums := alt.filterMap bitVecOf
      if sums.isEmpty then .error .valueError
      else
        match sums.mapM sumQE with
        | .error e => .error e
        | .ok ss => .ok (some (pyRound (meanQ ss)))
  else .ok none

/-- `size_def_pred` (source lines 524-526). -/
def sizeDefOf (schema : List FieldSpec) (fn : String) : Option String :=
  match (protocolMapping schema).lookup fn with
  | some s => if trimStr s = "" then none else some s
  | none => none

def numericBases : List String := ["int", "float", "double", "long"]

/-- The final numeric-type check (source lines 576-578). -/
def numericCheck (t : String) : Bool :=
  numericBases.any (fun nb => lowerStr t == nb || startsWithStr (lowerStr t) ("array of " ++ nb))

/-- Python `min` of one per-element column followed by `float(...)`
(source line 565), 0.0 for an empty column. -/
def colMin (lst : List PyVal) : Except SynthErr ℚ :=
  if lst.isEmpty then .ok 0
  else
    match pyMinVal lst with
    | some v =>
      match pyFloat v with
      | some q => .ok q
      | none => .error .valueError
    | none => .error .typeError

def colMax (lst : List PyVal) : Except SynthErr ℚ :=
  if lst.isEmpty then .ok 0
  else
    match pyMaxVal lst with
    | some v =>
      match pyFloat v with
      | some q => .ok q
      | none => .error .valueError
    | none => .error .typeError

/-- The per-element value columns `value_lists` (source lines 560-563);
`rec['value'][i]` on a non-list or short value raises. -/
def valueColumns (alt : List FieldRec) (n : Nat) :
    Except SynthErr (List (List PyVal)) :=
  (List.range n).mapM (fun i =>
    alt.mapM (fun r =>
      match pyIndex r.value i with
      | some v => Except.ok v
      | none => Except.error SynthErr.indexError))

/-- The size/value part of the descriptor: the scalar predictions, the
fixed-array per-element expansion (source lines 539-574) and the final
non-numeric nulling (source lines 576-580). -/
def sizesValuesOf (row : FieldSpec) (stats alt : List FieldRec) (pred : Pred)
    (le : Nat → String) :
    Except SynthErr (NumOrList × NumOrList × Option NumOrList × Option NumOrList) :=
  let scalars : NumOrList × NumOrList × Option NumOrList × Option NumOrList :=
    (.num (scalarMinSize alt pred), .num (scalarMaxSize alt pred),
     some (.num (scalarMinValue alt pred)), some (.num (scalarMaxValue alt pred)))
  let expanded : Except SynthErr (NumOrList × NumOrList × Option NumOrList × Option NumOrList) :=
    if startsWithStr row.type "array of " ∧ 0 < row.num_elements then
      let n := row.num_elements.toNat
      let base := lowerStr (dropStr row.type 9)
      match valueColumns alt n with
      | .error e => .error e
      | .ok cols =>
        let vals : Except SynthErr (Option NumOrList × Option NumOrList) :=
          if base ∈ numericBases then
            match cols.mapM colMin, cols.mapM colMax with
            | .error e, _ => .error e
            | _, .error e => .error e
            | .ok mins, .ok maxs => .ok (some (.list mins), some (.list maxs))
          else .ok (none, none)
        match vals with
        | .error e => .error e
        | .ok mv =>
          .ok (.list (List.replicate n (floorDivQ (scalarMinSize alt pred) row.num_elements)),
               .list (List.replicate n (floorDivQ (scalarMaxSize alt pred) row.num_elements)),
               mv.1, mv.2)
    else .ok scalars
  match expanded with
  | .error e => .error e
  | .ok r =>
    if numericCheck (finalTypeOf le stats pred) then .ok r
    else .ok (r.1, r.2.1, none, none)

/-- Synthesis of one descriptor for one (field, segment) pair: the body of
the inner loop of `generate_dpi` (source lines 470-599), with the model
response `pred` already obtained for this segment's features. -/
def synthesizeOne (schema : List FieldSpec) (le : Nat → String) (fn : String)
    (stats alt : List FieldRec) (pred : Pred) : Except SynthErr FieldDpi :=
  match bitCountOf stats alt pred with
  | .error e => .error e
  | .ok bc =>
    match schema.find? (fun r => r.name = fn) with
    | none => .error .indexError
    | some row =>
      match sizesValuesOf row stats alt pred le with
      | .error e => .error e
      | .ok sz =>
        .ok { is_dynamic_array := isDynOf schema fn alt pred
              min_size := roundNL sz.1
              max_size := roundNL sz.2.1
              min_value := sz.2.2.1.map roundNL
              max_value := sz.2.2.2.map roundNL
              size_defining_field := sizeDefOf schema fn
              field_type := finalTypeOf le stats pred
              bitfields_count := bc }

/-- The per-field loop of `generate_dpi` (source lines 467-601): segment
the occurrences, query the model per segment and synthesize one descriptor
per segment label. -/
def synthesizeField (schema : List FieldSpec) (M : Features → Pred) (le : Nat → String)
    (fn : String) (stats : List FieldRec) : Except SynthErr (List (String × FieldDpi)) :=
  match segment_stats stats with
  | none => .error .emptyStats
  | some seg_dict =>
    seg_dict.foldlM (fun acc p =>
      match p.2.mapM (fun i => stats.get? i) with
      | none => .error .indexError
      | some alt =>
        match synthesizeOne schema le fn stats alt (M (extract_aggregated_features alt)) with
        | .error e => .error e
        | .ok dpi => .ok (dinsert acc p.1 dpi)) []

/-- Grouping of all decoded records of one endpoint by field name
(source lines 461-464). -/
def fieldStatsOf (packets : List (List FieldRec)) : List (String × List FieldRec) :=
  packets.foldl (fun acc packet => packet.foldl (fun a f => dappend a f.field_name f) acc) []

/-- `all_alt_keys` (source lines 466-600): the set of segment labels seen
across the endpoint's fields (a Python set; its iteration order is
unspecified, modelled as first-seen order). -/
def allAltKeysOf (fieldsDpi : List (String × List (String × FieldDpi))) : List String :=
  (fieldsDpi.flatMap (fun p => p.2.map Prod.fst)).dedup

/-- The defensive completion loop (source lines 603-610): every label gets
an entry for every field, missing labels inheriting that field's own
`"100%"` descriptor; a field map with neither label raises `KeyError`
(`none`). -/
def assembleAlternatives (allKeys : List String)
    (fieldsDpi : List (String × List (String × FieldDpi))) :
    Option (List (String × List (String × FieldDpi))) :=
  allKeys.mapM (fun lbl =>
    (fieldsDpi.mapM (fun (p : String × List (String × FieldDpi)) =>
      match p.2.lookup lbl with
      | some d => some (p.1, d)
      | none => (p.2.lookup "100%").map (fun d => (p.1, d)))).map (fun m => (lbl, m)))

/-- `generate_dpi` (source lines 447-612) over already-parsed endpoints,
with the trained models and the label encoder as oracle parameters. -/
def generate_dpi (schema : List FieldSpec) (M : Features → Pred) (le : Nat → String)
    (endpoints : List (String × List (List FieldRec))) :
    Except SynthErr (List (String × List (String × List (String × FieldDpi)))) :=
  endpoints.mapM (fun ep =>
    let field_stats := fieldStatsOf ep.2
    match field_stats.mapM (fun p =>
        (synthesizeField schema M le p.1 p.2).map (fun alts => (p.1, alts))) with
    | .error e => .error e
    | .ok fields_dpi =>
      match assembleAlternatives (allAltKeysOf fields_dpi) fields_dpi with
      | some alts => .ok (ep.1, alts)
      | none => .error .keyError)

/-! ## Helper lemmas -/

theorem foldl_nonzero_sizes (rest : List FieldSpec) (a : Int) :
    rest.foldl (fun acc r => if r.size ≠ 0 then acc + r.size else acc) a =
      a + (((rest.filter (fun t => t.size ≠ 0)).map (fun t => t.size)).sum) := by
  induction rest generalizing a with
  | nil => simp
  | cons x xs ih =>
    rw [List.foldl_cons]
    by_cases hx : x.size ≠ 0
    · rw [if_pos hx, ih (a + x.size), List.filter_cons, if_pos (by simpa using hx),
        List.map_cons, List.sum_cons]
      ring
    · rw [if_neg hx, ih a, List.filter_cons, if_neg (by simpa using hx)]

theorem remainingAfter_eq (rest : List FieldSpec) :
    remainingAfter rest = (((rest.filter (fun t => t.size ≠ 0)).map (fun t => t.size)).sum) := by
  have := foldl_nonzero_sizes rest 0
  simpa [remainingAfter] using this

theorem mapM_option_length {α β : Type} (f : α → Option β) :
    ∀ (l : List α) (vs : List β), l.mapM f = some vs → vs.length = l.length := by
  intro l vs h
  rw [← List.mapM'_eq_mapM] at h
  induction l generalizing vs with
  | nil =>
    simp only [List.mapM', Option.pure_def, Option.some.injEq] at h
    subst h
    rfl
  | cons a t ih =>
    simp only [List.mapM', Option.pure_def, Option.bind_eq_bind] at h
    cases hf : f a with
    | none => rw [hf] at h; simp at h
    | some b =>
      rw [hf] at h
      simp only [Option.some_bind] at h
      cases ht : List.mapM' f t with
      | none => rw [ht] at h; simp at h
      | some bs =>
        rw [ht] at h
        simp only [Option.some_bind, Option.some.injEq] at h
        subst h
        simp [ih bs ht]

/-! ## C1 -/

/-- C1: for every schema field with declared size 0, the resolved size is
the size-field value whenever the size field is set and its previously
decoded value converts to an int, and otherwise is exactly
`payloadLength - offset - (sum of the non-zero declared sizes of the
entries strictly after the field)`. -/
theorem c1_dynamic_size_resolution (r : FieldSpec) (rest : List FieldSpec)
    (payloadLen offset : Int) (data : List (String × PyVal)) (h : r.size = 0) :
    (∀ v k, r.size_field ≠ "" → data.lookup r.size_field = some v → pyToInt v = some k →
      resolveFieldSize r rest payloadLen offset data = k) ∧
    ((r.size_field = "" ∨ data.lookup r.size_field = none ∨
        (∃ v, data.lookup r.size_field = some v ∧ pyToInt v = none)) →
      resolveFieldSize r rest payloadLen offset data =
        payloadLen - offset -
          (((rest.filter (fun t => t.size ≠ 0)).map (fun t => t.size)).sum)) := by
  unfold resolveFieldSize
  rw [if_pos h, ← remainingAfter_eq]
  constructor
  · intro v k hsf hl hk
    rw [if_pos hsf, hl]
    simp [hk]
  · intro hcase
    rcases hcase with hsf | hl | ⟨v, hl, hk⟩
    · rw [if_neg (by simp [hsf])]
    · by_cases hsf : r.size_field ≠ ""
      · rw [if_pos hsf, hl]
      · rw [if_neg hsf]
    · by_cases hsf : r.size_field ≠ ""
      · rw [if_pos hsf, hl]
        simp [hk]
      · rw [if_neg hsf]

def c1exRow : FieldSpec :=
  { name := "payload", size := 0, type := "char", size_field := "len", num_elements := 0,
    is_bitfield := false }

theorem c1_witness :
    c1exRow.size = 0 ∧
    ((∀ v k, c1exRow.size_field ≠ "" →
        [("len", PyVal.pint 5)].lookup c1exRow.size_field = some v → pyToInt v = some k →
        resolveFieldSize c1exRow [] 20 4 [("len", PyVal.pint 5)] = k) ∧
      ((c1exRow.size_field = "" ∨ [("len", PyVal.pint 5)].lookup c1exRow.size_field = none ∨
          (∃ v, [("len", PyVal.pint 5)].lookup c1exRow.size_field = some v ∧ pyToInt v = none)) →
        resolveFieldSize c1exRow [] 20 4 [("len", PyVal.pint 5)] =
          20 - 4 - ((([] : List FieldSpec).filter (fun t => t.size ≠ 0)).map
            (fun t => t.size)).sum)) :=
  ⟨rfl, c1_dynamic_size_resolution c1exRow [] 20 4 [("len", PyVal.pint 5)] rfl⟩

/-! ## C3 -/

/-- C3: when the bounds check fails at a field, decoding of the packet's
remaining fields stops and the records decoded so far are returned
unchanged; and a packet whose decode succeeded joins its endpoint's series
exactly when it produced at least one record. -/
theorem c3_truncation_stops_packet (r : FieldSpec) (rs : List FieldSpec) (payload : List Nat)
    (offset : Int) (data : List (String × PyVal)) (recs : List FieldRec)
    (hov : offset + resolveFieldSize r rs (payload.length : Int) offset data >
      (payload.length : Int))
    (schema : List FieldSpec) (ip : String) (pl2 : List Nat) (recs2 : List FieldRec)
    (hdec : decodeFields schema pl2 = .ok recs2) :
    decodeLoop payload (r :: rs) offset data recs = .ok recs ∧
    parsePcapWithIp schema [(ip, pl2)] = .ok (if recs2.isEmpty then [] else [(ip, [recs2])]) := by
  constructor
  · unfold decodeLoop
    rw [if_pos hov]
  · unfold parsePcapWithIp
    simp only [List.foldlM, hdec]
    by_cases he : recs2.isEmpty
    · simp [he]
    · simp [he, dappend]

def c3exRow : FieldSpec :=
  { name := "x", size := 10, type := "int", size_field := "", num_elements := 0,
    is_bitfield := false }

def c3exRow2 : FieldSpec :=
  { name := "y", size := 1, type := "int", size_field := "", num_elements := 0,
    is_bitfield := false }

def c3exRec : FieldRec :=
  { field_name := "y", size := 1, value := .pint 7, field_type := "int",
    size_defining_field := some "", bitfields_count := none }

theorem c3_witness :
    (0 + resolveFieldSize c3exRow [] (([] : List Nat).length : Int) 0 [] >
      (([] : List Nat).length : Int)) ∧
    decodeFields [c3exRow2] [7] = .ok [c3exRec] ∧
    (decodeLoop [] [c3exRow] 0 [] [c3exRec] = .ok [c3exRec] ∧
      parsePcapWithIp [c3exRow2] [("10.0.0.1", [7])] =
        .ok (if [c3exRec].isEmpty then [] else [("10.0.0.1", [[c3exRec]])])) :=
  ⟨by decide, rfl,
    c3_truncation_stops_packet c3exRow [] [] 0 [] [c3exRec] (by decide)
      [c3exRow2] "10.0.0.1" [7] [c3exRec] rfl⟩

/-! ## C6 -/

/-- C6: the clustering axis is the parsed occurrence values exactly when
the first occurrence's declared type is one of the segmentation engine's
numeric type names, every value parses as a float, and the parsed values
are not all zero; in every other case the axis is the byte sizes. -/
theorem c6_cluster_axis_choice (stats : List FieldRec) (s0 : FieldRec)
    (h0 : stats.head? = some s0) :
    (∀ vs, lowerStr s0.field_type ∈ numericSegTypes →
      stats.mapM (fun s => pyFloat s.value) = some vs →
      vs.all (fun q => q == 0) = false →
      segAxis stats = vs) ∧
    ((lowerStr s0.field_type ∉ numericSegTypes ∨
        stats.mapM (fun s => pyFloat s.value) = none ∨
        (∃ vs, stats.mapM (fun s => pyFloat s.value) = some vs ∧
          vs.all (fun q => q == 0) = true)) →
      segAxis stats = stats.map (fun s => (s.size : ℚ))) := by
  cases stats with
  | nil => simp at h0
  | cons a t =>
    obtain rfl : a = s0 := by simpa using h0
    constructor
    · intro vs hnum hmap hall
      simp only [segAxis, if_pos hnum, hmap, Option.getD_some, hall, Bool.false_eq_true,
        if_false]
    · intro hcase
      rcases hcase with hnum | hmap | ⟨vs, hmap, hall⟩
      · simp only [segAxis, if_neg hnum]
      · by_cases hnum : lowerStr a.field_type ∈ numericSegTypes
        · simp only [segAxis, if_pos hnum, hmap, Option.getD_none]
          split
          · rfl
          · rfl
        · simp only [segAxis, if_neg hnum]
      · by_cases hnum : lowerStr a.field_type ∈ numericSegTypes
        · simp only [segAxis, if_pos hnum, hmap, Option.getD_some, hall, if_true]
        · simp only [segAxis, if_neg hnum]

def c6exRec : FieldRec :=
  { field_name := "v", size := 4, value := .pint 9, field_type := "int" }

theorem c6_witness :
    ([c6exRec, c6exRec].head? = some c6exRec) ∧
    ((∀ vs, lowerStr c6exRec.field_type ∈ numericSegTypes →
        [c6exRec, c6exRec].mapM (fun s => pyFloat s.value) = some vs →
        vs.all (fun q => q == 0) = false →
        segAxis [c6exRec, c6exRec] = vs) ∧
      ((lowerStr c6exRec.field_type ∉ numericSegTypes ∨
          [c6exRec, c6exRec].mapM (fun s => pyFloat s.value) = none ∨
          (∃ vs, [c6exRec, c6exRec].mapM (fun s => pyFloat s.value) = some vs ∧
            vs.all (fun q => q == 0) = true)) →
        segAxis [c6exRec, c6exRec] = [c6exRec, c6exRec].map (fun s => (s.size : ℚ)))) :=
  ⟨rfl, c6_cluster_axis_choice [c6exRec, c6exRec] c6exRec rfl⟩

/-! ## C2 -/

theorem segAxis_length (stats : List FieldRec) : (segAxis stats).length = stats.length := by
  cases stats with
  | nil => rfl
  | cons a t =>
    simp only [segAxis]
    by_cases hnum : lowerStr a.field_type ∈ numericSegTypes
    · rw [if_pos hnum]
      cases hm : (a :: t).mapM (fun s => pyFloat s.value) with
      | none =>
        simp only [hm, Option.getD_none]
        split
        · simp
        · simp
      | some vs =>
        simp only [hm, Option.getD_some]
        have hv := mapM_option_length (fun s => pyFloat s.value) (a :: t) vs hm
        split
        · simp
        · exact hv
    · rw [if_neg hnum]
      simp

theorem argmaxGo_lt (l : List ℚ) : ∀ (i best : Nat) (bv : ℚ), best < i →
    argmaxGo i best bv l < i + l.length := by
  induction l with
  | nil =>
    intro i best bv h
    simpa [argmaxGo] using h
  | cons x xs ih =>
    intro i best bv h
    simp only [argmaxGo]
    by_cases hx : bv < x
    · rw [if_pos hx]
      have hgo := ih (i + 1) i x (Nat.lt_succ_self i)
      calc argmaxGo (i + 1) i x xs < i + 1 + xs.length := hgo
        _ ≤ i + (x :: xs).length := by simp [List.length_cons]; omega
    · rw [if_neg hx]
      have hgo := ih (i + 1) best bv (h.trans (Nat.lt_succ_self i))
      calc argmaxGo (i + 1) best bv xs < i + 1 + xs.length := hgo
        _ ≤ i + (x :: xs).length := by simp [List.length_cons]; omega

theorem argmaxIdx_lt (l : List ℚ) (h : l ≠ []) : argmaxIdx l < l.length := by
  cases l with
  | nil => exact absurd rfl h
  | cons x xs =>
    have hgo := argmaxGo_lt xs 1 0 x Nat.one_pos
    simpa [argmaxIdx, List.length_cons, Nat.add_comm] using hgo

theorem segSorted_length (stats : List FieldRec) :
    (segSorted stats).length = stats.length := by
  simp [segSorted, argsortIdx, List.length_insertionSort, segAxis_length]

theorem segSorted_perm (stats : List FieldRec) :
    (segSorted stats).Perm (List.range stats.length) := by
  unfold segSorted argsortIdx
  rw [segAxis_length]
  exact List.perm_insertionSort _ _

theorem segSorted_nodup (stats : List FieldRec) : (segSorted stats).Nodup :=
  ((segSorted_perm stats).nodup_iff).mpr (List.nodup_range _)

theorem segSorted_sorted (stats : List FieldRec) :
    List.Sorted (idxRel (segAxis stats)) (segSorted stats) :=
  List.sorted_insertionSort _ _

theorem segOne_append_segTwo (stats : List FieldRec) :
    segOne stats ++ segTwo stats = segSorted stats :=
  List.take_append_drop _ _

theorem segCut_lt (stats : List FieldRec) (hn : 2 ≤ stats.length) :
    segCut stats < stats.length := by
  have hvals : (segSortedVals stats).length = stats.length := by
    simp [segSortedVals, segSorted_length]
  have hd : (segDiffs stats).length = stats.length - 1 := by
    simp only [segDiffs, diffsOf, List.length_zipWith, List.length_tail, hvals]
    omega
  have hne : segDiffs stats ≠ [] := by
    intro h0
    rw [h0] at hd
    simp at hd
    omega
  have harg := argmaxIdx_lt _ hne
  rw [hd] at harg
  simp only [segCut]
  omega

/-- C2 (amended): on at least two occurrences with positive axis range and
maximal gap at least 1% of the range, `segment_stats` returns the main
group under its rounded-percentage label together with `"100%"` mapped to
all indices; the main group and the remaining group (not the `"100%"`
entry) are disjoint and together are exactly the set of occurrence
indices; the main group is the larger one and on ties the lower-valued
one; the result holds exactly these two labels, which collapse to the
single entry `"100%"` when the percentage rounds to 100. -/
theorem c2_two_cluster_split (stats : List FieldRec)
    (hn : 2 ≤ stats.length) (hr : 0 < segRange stats)
    (hg : ¬ segGap stats < 1 / 100 * segRange stats) :
    segment_stats stats =
      some (dinsert (dinsert [] (segLabel stats) (segMain stats)) "100%"
        (List.range stats.length)) ∧
    List.Disjoint (segMain stats) (segOutlier stats) ∧
    (segMain stats ++ segOutlier stats).Perm (List.range stats.length) ∧
    (segOutlier stats).length ≤ (segMain stats).length ∧
    ((segOne stats).length = (segTwo stats).length → segMain stats = segOne stats) ∧
    (∀ i ∈ segOne stats, ∀ j ∈ segTwo stats,
      (segAxis stats).getD i 0 ≤ (segAxis stats).getD j 0) ∧
    (segOne stats ≠ [] ∧ segTwo stats ≠ []) ∧
    (dinsert (dinsert [] (segLabel stats) (segMain stats)) "100%"
        (List.range stats.length)).lookup "100%" = some (List.range stats.length) ∧
    (segLabel stats ≠ "100%" →
      (dinsert (dinsert [] (segLabel stats) (segMain stats)) "100%"
          (List.range stats.length)).lookup (segLabel stats) = some (segMain stats) ∧
      (dinsert (dinsert [] (segLabel stats) (segMain stats)) "100%"
          (List.range stats.length)).length = 2) := by
  have hA : segment_stats stats =
      some (dinsert (dinsert [] (segLabel stats) (segMain stats)) "100%"
        (List.range stats.length)) := by
    obtain ⟨a, t, rfl⟩ : ∃ a t, stats = a :: t := by
      cases stats with
      | nil => simp at hn
      | cons a t => exact ⟨a, t, rfl⟩
    simp only [segment_stats]
    rw [if_neg (by rw [segAxis_length]; omega), if_neg hr.ne', if_neg hg]
  have hnd : (segOne stats ++ segTwo stats).Nodup := by
    rw [segOne_append_segTwo]
    exact segSorted_nodup _
  have hdisj12 : List.Disjoint (segOne stats) (segTwo stats) :=
    (List.nodup_append.mp hnd).2.2
  have hperm12 : (segOne stats ++ segTwo stats).Perm (List.range stats.length) := by
    rw [segOne_append_segTwo]
    exact segSorted_perm _
  refine ⟨hA, ?_, ?_, ?_, ?_, ?_, ?_, ?_, ?_⟩
  · unfold segMain segOutlier
    split
    · exact hdisj12
    · exact hdisj12.symm
  · unfold segMain segOutlier
    split
    · exact hperm12
    · exact (List.perm_append_comm).trans hperm12
  · unfold segMain segOutlier
    split
    · rename_i h
      exact h
    · rename_i h
      exact le_of_not_le h
  · intro h
    unfold segMain
    rw [if_pos (le_of_eq h.symm)]
  · have hsorted := segSorted_sorted stats
    rw [← segOne_append_segTwo] at hsorted
    have hpw := (List.pairwise_append.mp hsorted).2.2
    intro i hi j hj
    rcases hpw i hi j hj with hlt | ⟨heq, _⟩
    · exact le_of_lt hlt
    · exact le_of_eq heq
  · constructor
    · have hlen : (segOne stats).length ≠ 0 := by
        simp only [segOne, List.length_take, segSorted_length, segCut]
        omega
      intro h0
      rw [h0] at hlen
      simp at hlen
    · have hc := segCut_lt stats hn
      have hlen : (segTwo stats).length ≠ 0 := by
        simp only [segTwo, List.length_drop, segSorted_length]
        omega
      intro h0
      rw [h0] at hlen
      simp at hlen
  · by_cases hl : segLabel stats = "100%"
    · simp [dinsert, hl, List.lookup]
    · have hb : ("100%" == segLabel stats) = false := by
        simp [Ne.symm hl]
      simp [dinsert, hl, List.lookup, hb]
  · intro hl
    constructor
    · simp [dinsert, hl, List.lookup]
    · simp [dinsert, hl]

def c2exRec (sz : Int) : FieldRec :=
  { field_name := "f", size := sz, value := .pstr [97], field_type := "char" }

def c2exStats : List FieldRec := [c2exRec 1, c2exRec 1, c2exRec 10, c2exRec 10]

/-- C2 counterexample: on two size clusters separated by a dominating gap,
the two returned segments are the main group and the full `"100%"` list,
whose index sets are NOT disjoint (index 0 is in both). -/
theorem c2_counterexample :
    segment_stats c2exStats = some [("50%", [0, 1]), ("100%", [0, 1, 2, 3])] ∧
    ¬ List.Disjoint [0, 1] [0, 1, 2, 3] := by
  constructor
  · with_unfolding_all rfl
  · intro h
    exact h (List.mem_cons_self 0 [1]) (List.mem_cons_self 0 [1, 2, 3])

theorem c2_witness :
    (0 : ℚ) < segRange c2exStats ∧
    segment_stats c2exStats =
      some (dinsert (dinsert [] (segLabel c2exStats) (segMain c2exStats)) "100%"
        (List.range c2exStats.length)) :=
  ⟨by with_unfolding_all decide,
    (c2_two_cluster_split c2exStats (by decide) (by with_unfolding_all decide)
      (by with_unfolding_all decide)).1⟩

/-! ## C10 -/

theorem mapM_except_ok {α β ε : Type} (f : α → Except ε β) :
    ∀ (l : List α), (∀ a ∈ l, ∃ b, f a = .ok b) →
      ∃ bs, l.mapM f = .ok bs ∧ bs.length = l.length := by
  intro l
  induction l with
  | nil => exact fun _ => ⟨[], rfl, rfl⟩
  | cons a t ih =>
    intro h
    obtain ⟨b, hb⟩ := h a (List.mem_cons_self a t)
    obtain ⟨bs, hbs, hlen⟩ := ih (fun x hx => h x (List.mem_cons_of_mem a hx))
    refine ⟨b :: bs, ?_, by simp [hlen]⟩
    rw [← List.mapM'_eq_mapM] at hbs ⊢
    simp only [List.mapM', hb, hbs]
    rfl

theorem decodeElem_ok (base : String) (chunk : List Nat)
    (hf : lowerStr base ≠ "float") (hd : lowerStr base ≠ "double") :
    ∃ v, decodeElem base chunk = .ok v := by
  simp only [decodeElem]
  by_cases h1 : lowerStr base = "int"
  · rw [if_pos h1]
    exact ⟨_, rfl⟩
  · rw [if_neg h1, if_neg hf, if_neg hd]
    by_cases h4 : lowerStr base = "char"
    · rw [if_pos h4]
      exact ⟨_, rfl⟩
    · rw [if_neg h4]
      exact ⟨_, rfl⟩

def c10zeroRow : FieldSpec :=
  { name := "arr", size := 8, type := "array of int", size_field := "", num_elements := 0,
    is_bitfield := false }

def c10floatRow : FieldSpec :=
  { name := "arr", size := 6, type := "array of float", size_field := "", num_elements := 2,
    is_bitfield := false }

/-- C10 (amended): with `elementCount > 0` and a base type other than
float/double, array decode is total and yields exactly `elementCount`
element values (float/double bases additionally require the element chunk
to be exactly 4/8 bytes, else `struct.unpack` raises); the schema compiler
accepts a 5-token array line with count 0, and decoding that field reaches
the unguarded `fsize // ne` division, raising `ZeroDivisionError`. -/
theorem c10_array_decode :
    (∀ (base : String) (ne : Int) (payload : List Nat) (offset fsize : Int),
      0 < ne → lowerStr base ≠ "float" → lowerStr base ≠ "double" →
      ∃ vals, decodeArray base ne payload offset fsize = .ok vals ∧
        vals.length = ne.toNat) ∧
    loadProtocolDefinitions [] ["1", "arr 8 array int 0"] = .ok [c10zeroRow] ∧
    decodeFields [c10zeroRow] (List.replicate 8 0) = .error .zeroDivision := by
  refine ⟨?_, ?_, ?_⟩
  · intro base ne payload offset fsize hne hf hd
    simp only [decodeArray]
    rw [if_neg (by omega : ¬ ne = 0)]
    obtain ⟨bs, hbs, hlen⟩ := mapM_except_ok
      (fun i : Nat => decodeElem base (pySlice payload (offset + (i : Int) * Int.fdiv fsize ne)
        (offset + (i : Int) * Int.fdiv fsize ne + Int.fdiv fsize ne)))
      (List.range ne.toNat) (fun i _ => decodeElem_ok base _ hf hd)
    exact ⟨bs, hbs, by simpa using hlen⟩
  · with_unfolding_all rfl
  · with_unfolding_all rfl

/-- C10 counterexample: an `array of float` field whose element size is
not 4 bytes makes array decode raise `struct.error`, so array decode
under `elementCount > 0` is not total. -/
theorem c10_counterexample :
    decodeFields [c10floatRow] (List.replicate 6 0) = .error .structError ∧
    (0 : Int) < c10floatRow.num_elements := by
  exact ⟨by with_unfolding_all rfl, by decide⟩

theorem c10_witness :
    ((0 : Int) < 2 ∧ lowerStr "int" ≠ "float" ∧ lowerStr "int" ≠ "double") ∧
    (∃ vals, decodeArray "int" 2 [1, 2, 3, 4] 0 4 = .ok vals ∧
      vals.length = (2 : Int).toNat) :=
  ⟨⟨by decide, by decide, by decide⟩,
    c10_array_decode.1 "int" 2 [1, 2, 3, 4] 0 4 (by decide) (by decide) (by decide)⟩

/-! ## C9 -/

theorem mapM_option_congr_some {α β : Type} (f : α → Option β) (g : α → β) :
    ∀ (l : List α), (∀ a ∈ l, f a = some (g a)) → l.mapM f = some (l.map g) := by
  intro l
  induction l with
  | nil => exact fun _ => rfl
  | cons a t ih =>
    intro h
    have ha := h a (List.mem_cons_self a t)
    have ht := ih (fun x hx => h x (List.mem_cons_of_mem a hx))
    rw [← List.mapM'_eq_mapM] at ht ⊢
    simp only [List.mapM', ha, ht]
    rfl

/-- C9: given that every field's segment map contains `"100%"`, the
completion loop succeeds, every segment label receives one descriptor per
field (the field's own one for that label, else its own `"100%"`
descriptor), and each label's field-name list is exactly the endpoint's
field-name list. -/
theorem c9_segment_label_completion (allKeys : List String)
    (fieldsDpi : List (String × List (String × FieldDpi)))
    (h100 : ∀ p ∈ fieldsDpi, (p.2.lookup "100%").isSome = true) :
    assembleAlternatives allKeys fieldsDpi =
      some (allKeys.map (fun lbl => (lbl, fieldsDpi.map (fun p =>
        (p.1, match p.2.lookup lbl with
              | some dd => dd
              | none => (p.2.lookup "100%").getD dfltDpi))))) ∧
    ∀ res, assembleAlternatives allKeys fieldsDpi = some res →
      ∀ q ∈ res, q.2.map Prod.fst = fieldsDpi.map Prod.fst := by
  have hinner : ∀ lbl : String,
      (fieldsDpi.mapM (fun (p : String × List (String × FieldDpi)) =>
        match p.2.lookup lbl with
        | some d => some (p.1, d)
        | none => (p.2.lookup "100%").map (fun d => (p.1, d)))) =
      some (fieldsDpi.map (fun p =>
        (p.1, match p.2.lookup lbl with
              | some dd => dd
              | none => (p.2.lookup "100%").getD dfltDpi))) := by
    intro lbl
    apply mapM_option_congr_some
    intro p hp
    cases hlk : p.2.lookup lbl with
    | some dd => rfl
    | none =>
      obtain ⟨dd, hdd⟩ := Option.isSome_iff_exists.mp (h100 p hp)
      simp [hdd]
  have hmain : assembleAlternatives allKeys fieldsDpi =
      some (allKeys.map (fun lbl => (lbl, fieldsDpi.map (fun p =>
        (p.1, match p.2.lookup lbl with
              | some dd => dd
              | none => (p.2.lookup "100%").getD dfltDpi))))) := by
    unfold assembleAlternatives
    apply mapM_option_congr_some
    intro lbl _
    rw [hinner lbl]
    rfl
  refine ⟨hmain, ?_⟩
  intro res hres q hq
  rw [hmain] at hres
  cases hres
  obtain ⟨lbl, _, rfl⟩ := List.mem_map.mp hq
  simp [List.map_map, Function.comp]

def c9exDpi1 : FieldDpi :=
  { dfltDpi with field_type := "int" }

def c9exFields : List (String × List (String × FieldDpi)) :=
  [("a", [("100%", dfltDpi)]), ("b", [("60%", c9exDpi1), ("100%", dfltDpi)])]

theorem c9_witness :
    (∀ p ∈ c9exFields, (p.2.lookup "100%").isSome = true) ∧
    assembleAlternatives ["60%", "100%"] c9exFields =
      some (["60%", "100%"].map (fun lbl => (lbl, c9exFields.map (fun p =>
        (p.1, match p.2.lookup lbl with
              | some dd => dd
              | none => (p.2.lookup "100%").getD dfltDpi))))) :=
  ⟨by decide, (c9_segment_label_completion ["60%", "100%"] c9exFields (by decide)).1⟩

/-! ## Synthesizer elimination helper -/

theorem synthesizeOne_ok_elim (schema : List FieldSpec) (le : Nat → String) (fn : String)
    (stats alt : List FieldRec) (pred : Pred) (d : FieldDpi)
    (hok : synthesizeOne schema le fn stats alt pred = .ok d) :
    ∃ bc row sz, bitCountOf stats alt pred = .ok bc ∧
      schema.find? (fun r => r.name = fn) = some row ∧
      sizesValuesOf row stats alt pred le = .ok sz ∧
      d = { is_dynamic_array := isDynOf schema fn alt pred
            min_size := roundNL sz.1
            max_size := roundNL sz.2.1
            min_value := sz.2.2.1.map roundNL
            max_value := sz.2.2.2.map roundNL
            size_defining_field := sizeDefOf schema fn
            field_type := finalTypeOf le stats pred
            bitfields_count := bc } := by
  unfold synthesizeOne at hok
  cases hbc : bitCountOf stats alt pred with
  | error e => rw [hbc] at hok; cases hok
  | ok bc =>
    rw [hbc] at hok
    dsimp only at hok
    cases hrow : schema.find? (fun r => r.name = fn) with
    | none => rw [hrow] at hok; cases hok
    | some row =>
      rw [hrow] at hok
      dsimp only at hok
      cases hsz : sizesValuesOf row stats alt pred le with
      | error e => rw [hsz] at hok; cases hok
      | ok sz =>
        rw [hsz] at hok
        cases hok
        exact ⟨bc, row, sz, rfl, rfl, hsz, rfl⟩

/-! ## C4 -/

/-- C4: the synthesized `isDynamicArray` is true whenever the schema's
size-field lookup for the field name is non-empty; otherwise it is false
whenever the segment's observed min size equals its max size; otherwise it
is the model's predicted class (assuming the looked-up size field carries
no surrounding whitespace, as compiler output never does). -/
theorem c4_is_dynamic_override (schema : List FieldSpec) (le : Nat → String) (fn : String)
    (stats alt : List FieldRec) (pred : Pred) (d : FieldDpi)
    (hws : trimStr (((protocolMapping schema).lookup fn).getD "") =
      ((protocolMapping schema).lookup fn).getD "")
    (hok : synthesizeOne schema le fn stats alt pred = .ok d) :
    d.is_dynamic_array =
      (if ((protocolMapping schema).lookup fn).getD "" ≠ "" then true
       else if (extract_aggregated_features alt).min_size =
         (extract_aggregated_features alt).max_size then false
       else argmaxIdx pred.is_dynamic != 0) := by
  obtain ⟨bc, row, sz, _, _, _, rfl⟩ := synthesizeOne_ok_elim schema le fn stats alt pred d hok
  show isDynOf schema fn alt pred = _
  unfold isDynOf
  cases hl : (protocolMapping schema).lookup fn with
  | none => simp
  | some s =>
    rw [hl] at hws
    simp only [Option.getD_some] at hws ⊢
    rw [hws]

/-! ## C5 -/

/-- C5 (amended): the synthesized `fieldType` is the statistical mode of
the declared types observed across ALL of the field's occurrences (the
full list, not the segment's subset) whenever occurrences exist and that
mode is not `"bitfield"`; the model's categorical prediction is used when
the mode is `"bitfield"`. -/
theorem c5_field_type_mode (schema : List FieldSpec) (le : Nat → String) (fn : String)
    (stats alt : List FieldRec) (pred : Pred) (d : FieldDpi)
    (hok : synthesizeOne schema le fn stats alt pred = .ok d) :
    (stats ≠ [] → pandasMode (stats.map (fun s => s.field_type)) ≠ "bitfield" →
      d.field_type = pandasMode (stats.map (fun s => s.field_type))) ∧
    (stats ≠ [] → pandasMode (stats.map (fun s => s.field_type)) = "bitfield" →
      d.field_type = le (argmaxIdx pred.field_type)) := by
  obtain ⟨bc, row, sz, _, _, _, rfl⟩ := synthesizeOne_ok_elim schema le fn stats alt pred d hok
  have hagg : stats ≠ [] → aggTypeOf stats = pandasMode (stats.map (fun s => s.field_type)) := by
    intro hne
    unfold aggTypeOf
    rw [if_neg (by simp [hne])]
  constructor
  · intro hne hmode
    show finalTypeOf le stats pred = _
    unfold finalTypeOf
    rw [hagg hne, if_pos hmode]
  · intro hne hmode
    show finalTypeOf le stats pred = _
    unfold finalTypeOf
    rw [hagg hne]
    rw [if_neg (by simp [hmode])]

/-! ## C8 -/

/-- C8: a not-a-number model output for `minSize`/`maxSize` (and, for a
field whose final type passes the numeric check, `minValue`/`maxValue`) is
replaced by the corresponding observed aggregate of the segment, rounded
like every other number; and for an observed `"bitfield"` mode, a
not-a-number bit-count regression falls back to the rounded mean popcount
of the segment's list-valued records.  (The statement covers the scalar,
non-array schema rows, where no per-element expansion rewrites sizes.) -/
theorem c8_nan_fallbacks (schema : List FieldSpec) (le : Nat → String) (fn : String)
    (stats alt : List FieldRec) (pred : Pred) (d : FieldDpi) (row : FieldSpec)
    (hrow : schema.find? (fun r => r.name = fn) = some row)
    (hnotarr : ¬ (startsWithStr row.type "array of " = true ∧ 0 < row.num_elements))
    (hok : synthesizeOne schema le fn stats alt pred = .ok d) :
    (pred.min_size = none →
      d.min_size = .num (round3 (extract_aggregated_features alt).min_size)) ∧
    (pred.max_size = none →
      d.max_size = .num (round3 (extract_aggregated_features alt).max_size)) ∧
    (pred.min_value = none → numericCheck (finalTypeOf le stats pred) = true →
      d.min_value = some (.num (round3 (extract_aggregated_features alt).min_value))) ∧
    (pred.max_value = none → numericCheck (finalTypeOf le stats pred) = true →
      d.max_value = some (.num (round3 (extract_aggregated_features alt).max_value))) ∧
    (lowerStr (aggTypeOf stats) = "bitfield" → pred.bit_count = none →
      ∀ ss, (alt.filterMap bitVecOf).mapM sumQE = Except.ok ss →
        (alt.filterMap bitVecOf).isEmpty = false →
        d.bitfields_count = some (pyRound (meanQ ss))) := by
  obtain ⟨bc, row2, sz, hbc, hrow2, hsz, rfl⟩ :=
    synthesizeOne_ok_elim schema le fn stats alt pred d hok
  rw [hrow] at hrow2
  cases hrow2
  simp only [sizesValuesOf] at hsz
  rw [if_neg hnotarr] at hsz
  dsimp only at hsz
  refine ⟨?_, ?_, ?_, ?_, ?_⟩
  · intro hmn
    by_cases hch : numericCheck (finalTypeOf le stats pred) = true
    · rw [if_pos hch] at hsz
      cases hsz
      simp [roundNL, scalarMinSize, hmn]
    · rw [if_neg hch] at hsz
      cases hsz
      simp [roundNL, scalarMinSize, hmn]
  · intro hmx
    by_cases hch : numericCheck (finalTypeOf le stats pred) = true
    · rw [if_pos hch] at hsz
      cases hsz
      simp [roundNL, scalarMaxSize, hmx]
    · rw [if_neg hch] at hsz
      cases hsz
      simp [roundNL, scalarMaxSize, hmx]
  · intro hmv hch
    rw [if_pos hch] at hsz
    cases hsz
    simp [roundNL, scalarMinValue, hmv]
  · intro hmv hch
    rw [if_pos hch] at hsz
    cases hsz
    simp [roundNL, scalarMaxValue, hmv]
  · intro hbf hnan ss hss hne
    simp only [bitCountOf] at hbc
    rw [if_pos hbf, hnan] at hbc
    dsimp only at hbc
    rw [if_neg (by simp [hne]), hss] at hbc
    cases hbc
    rfl

/-! ## C4, C5, C8 concrete instances -/

def c4exSchema : List FieldSpec :=
  [{ name := "f", size := 0, type := "char", size_field := "len", num_elements := 0,
     is_bitfield := false }]

def c4exRec : FieldRec :=
  { field_name := "f", size := 5, value := .pstr [104, 105], field_type := "char" }

def c4exPred : Pred :=
  { is_dynamic := [1], min_size := some 5, max_size := some 5, min_value := some 0,
    max_value := some 0, field_type := [1], bit_count := some 0 }

def c4exDpi : FieldDpi :=
  { is_dynamic_array := true, min_size := .num 5, max_size := .num 5, min_value := none,
    max_value := none, size_defining_field := some "len", field_type := "char",
    bitfields_count := none }

theorem c4_witness :
    (trimStr (((protocolMapping c4exSchema).lookup "f").getD "") =
      ((protocolMapping c4exSchema).lookup "f").getD "") ∧
    c4exDpi.is_dynamic_array =
      (if ((protocolMapping c4exSchema).lookup "f").getD "" ≠ "" then true
       else if (extract_aggregated_features [c4exRec]).min_size =
         (extract_aggregated_features [c4exRec]).max_size then false
       else argmaxIdx c4exPred.is_dynamic != 0) :=
  ⟨by with_unfolding_all rfl,
    c4_is_dynamic_override c4exSchema (fun _ => "char") "f" [c4exRec] [c4exRec] c4exPred
      c4exDpi (by with_unfolding_all rfl) (by with_unfolding_all rfl)⟩

def c5exSchema : List FieldSpec :=
  [{ name := "f", size := 4, type := "int", size_field := "", num_elements := 0,
     is_bitfield := false }]

def c5iRec (n : Int) : FieldRec :=
  { field_name := "f", size := 4, value := .pint n, field_type := "int" }

def c5sRec (bs : List Nat) : FieldRec :=
  { field_name := "f", size := 4, value := .pstr bs, field_type := "char" }

/-- Occurrences of one field name carrying mixed declared types: two int
records with small values and three char records with large numeric text
values, so that the value axis splits the two ints plus one char into the
main segment. -/
def c5exStats : List FieldRec :=
  [c5iRec 1, c5iRec 2, c5sRec [51], c5sRec [49, 48, 48, 48], c5sRec [49, 48, 48, 49]]

def c5exPred : Pred :=
  { is_dynamic := [1], min_size := some 4, max_size := some 4, min_value := some 0,
    max_value := some 0, field_type := [1], bit_count := some 0 }

/-- C5 counterexample: the `"60%"` segment holds occurrences 0,1,2 whose
declared-type mode is `"int"`, yet the synthesized descriptor for that
segment carries `"char"` — the mode over ALL five occurrences — because
the code computes the mode over `stats`, not the segment. -/
theorem c5_counterexample :
    segment_stats c5exStats = some [("60%", [0, 1, 2]), ("100%", [0, 1, 2, 3, 4])] ∧
    (synthesizeField c5exSchema (fun _ => c5exPred) (fun _ => "float") "f" c5exStats).map
      (fun l => (l.lookup "60%").map (fun d => d.field_type)) = .ok (some "char") ∧
    pandasMode ((c5exStats.take 3).map (fun s => s.field_type)) = "int" ∧
    ("char" : String) ≠ "int" := by
  exact ⟨by with_unfolding_all rfl, by with_unfolding_all rfl,
    by with_unfolding_all rfl, by decide⟩

def c5wStats : List FieldRec := [c5iRec 1, c5iRec 2]

def c5wDpi : FieldDpi :=
  { is_dynamic_array := false, min_size := .num 4, max_size := .num 4,
    min_value := some (.num 0), max_value := some (.num 0), size_defining_field := none,
    field_type := "int", bitfields_count := none }

theorem c5_witness :
    (c5wStats ≠ [] ∧ pandasMode (c5wStats.map (fun s => s.field_type)) ≠ "bitfield") ∧
    ((c5wStats ≠ [] → pandasMode (c5wStats.map (fun s => s.field_type)) ≠ "bitfield" →
      c5wDpi.field_type = pandasMode (c5wStats.map (fun s => s.field_type))) ∧
    (c5wStats ≠ [] → pandasMode (c5wStats.map (fun s => s.field_type)) = "bitfield" →
      c5wDpi.field_type = (fun _ : Nat => "float") (argmaxIdx c5exPred.field_type))) :=
  ⟨⟨List.cons_ne_nil _ _, by with_unfolding_all decide⟩,
    c5_field_type_mode c5exSchema (fun _ => "float") "f" c5wStats c5wStats c5exPred c5wDpi
      (by with_unfolding_all rfl)⟩

def c8exSchema : List FieldSpec :=
  [{ name := "b", size := 1, type := "bitfield", size_field := "", num_elements := 0,
     is_bitfield := true }]

def c8exRec : FieldRec :=
  { field_name := "b", size := 1, value := .plist [.pint 1, .pint 0, .pint 1],
    field_type := "bitfield", size_defining_field := some "", bitfields_count := some 2,
    bit_vector := some [1, 0, 1] }

/-- A model response whose regression outputs are all not-a-number. -/
def c8exPred : Pred :=
  { is_dynamic := [1], min_size := none, max_size := none, min_value := none,
    max_value := none, field_type := [1], bit_count := none }

def c8exDpi : FieldDpi :=
  { is_dynamic_array := false, min_size := .num 1, max_size := .num 1, min_value := none,
    max_value := none, size_defining_field := none, field_type := "char",
    bitfields_count := some 2 }

theorem c8_witness :
    (c8exSchema.find? (fun r => r.name = "b") = some (c8exSchema.getD 0 c10zeroRow) ∧
      c8exPred.min_size = none ∧ lowerStr (aggTypeOf [c8exRec]) = "bitfield") ∧
    ((c8exPred.min_size = none →
      c8exDpi.min_size = .num (round3 (extract_aggregated_features [c8exRec]).min_size)) ∧
    (c8exPred.max_size = none →
      c8exDpi.max_size = .num (round3 (extract_aggregated_features [c8exRec]).max_size)) ∧
    (c8exPred.min_value = none →
      numericCheck (finalTypeOf (fun _ => "char") [c8exRec] c8exPred) = true →
      c8exDpi.min_value =
        some (.num (round3 (extract_aggregated_features [c8exRec]).min_value))) ∧
    (c8exPred.max_value = none →
      numericCheck (finalTypeOf (fun _ => "char") [c8exRec] c8exPred) = true →
      c8exDpi.max_value =
        some (.num (round3 (extract_aggregated_features [c8exRec]).max_value))) ∧
    (lowerStr (aggTypeOf [c8exRec]) = "bitfield" → c8exPred.bit_count = none →
      ∀ ss, ([c8exRec].filterMap bitVecOf).mapM sumQE = Except.ok ss →
        ([c8exRec].filterMap bitVecOf).isEmpty = false →
        c8exDpi.bitfields_count = some (pyRound (meanQ ss)))) :=
  ⟨⟨by with_unfolding_all rfl, rfl, by with_unfolding_all rfl⟩,
    c8_nan_fallbacks c8exSchema (fun _ => "char") "b" [c8exRec] [c8exRec] c8exPred c8exDpi
      (c8exSchema.getD 0 c10zeroRow) (by with_unfolding_all rfl)
      (by with_unfolding_all decide) (by with_unfolding_all rfl)⟩

/-! ## C7 -/

/-- Modelled from the claim's wording: the numeric i-th element values of
a list of occurrences (used only to state what the per-element extremes
should be; the program's own computation is `colMin`/`colMax` over
`valueColumns`). -/
def specColVals (alt : List FieldRec) (i : Nat) : List ℚ :=
  alt.filterMap (fun r => (pyIndex r.value i).bind pyNumQ)

/-- Occurrence value is a list of at least `n` elements. -/
def arrayLenRec (n : Nat) (r : FieldRec) : Bool :=
  match r.value with
  | .plist vs => decide (n ≤ vs.length)
  | _ => false

/-- The first `n` elements of the occurrence's value list are numeric. -/
def arrayNumRec (n : Nat) (r : FieldRec) : Bool :=
  match r.value with
  | .plist vs => (vs.take n).all (fun e => (pyNumQ e).isSome)
  | _ => false

theorem pyFloat_of_pyNumQ (v : PyVal) (q : ℚ) (h : pyNumQ v = some q) :
    pyFloat v = some q := by
  cases v <;> simp_all [pyNumQ, pyFloat]

theorem pyLtVal_numeric (a b : PyVal) (qa qb : ℚ) (ha : pyNumQ a = some qa)
    (hb : pyNumQ b = some qb) : pyLtVal a b = some (decide (qa < qb)) := by
  unfold pyLtVal
  rw [ha, hb]

theorem pyMinFold_numeric :
    ∀ (xs : List PyVal) (acc : PyVal) (qa : ℚ), pyNumQ acc = some qa →
      (∀ e ∈ xs, (pyNumQ e).isSome = true) →
      ∃ v, (xs.foldlM
          (fun acc y => (pyLtVal y acc).map (fun lt => if lt then y else acc)) acc) = some v ∧
        pyNumQ v = some ((xs.filterMap pyNumQ).foldl min qa) := by
  intro xs
  induction xs with
  | nil =>
    intro acc qa ha _
    exact ⟨acc, rfl, by simpa using ha⟩
  | cons x t ih =>
    intro acc qa ha hall
    obtain ⟨qx, hqx⟩ := Option.isSome_iff_exists.mp (hall x (List.mem_cons_self x t))
    have hstep : pyLtVal x acc = some (decide (qx < qa)) := pyLtVal_numeric x acc qx qa hqx ha
    have hnext : pyNumQ (if decide (qx < qa) then x else acc) = some (min qa qx) := by
      by_cases hlt : qx < qa
      · simp [hlt, hqx, min_eq_right (le_of_lt hlt)]
      · simp [hlt, ha, min_eq_left (le_of_not_lt hlt)]
    obtain ⟨v, hv, hnum⟩ := ih (if decide (qx < qa) then x else acc) (min qa qx) hnext
      (fun e he => hall e (List.mem_cons_of_mem x he))
    refine ⟨v, ?_, ?_⟩
    · simp only [List.foldlM, hstep, Option.bind_eq_bind, Option.some_bind, Option.map_some]
      exact hv
    · rw [hnum]
      simp [List.filterMap_cons, hqx]
  
theorem pyMaxFold_numeric :
    ∀ (xs : List PyVal) (acc : PyVal) (qa : ℚ), pyNumQ acc = some qa →
      (∀ e ∈ xs, (pyNumQ e).isSome = true) →
      ∃ v, (xs.foldlM
          (fun acc y => (pyLtVal acc y).map (fun lt => if lt then y else acc)) acc) = some v ∧
        pyNumQ v = some ((xs.filterMap pyNumQ).foldl max qa) := by
  intro xs
  induction xs with
  | nil =>
    intro acc qa ha _
    exact ⟨acc, rfl, by simpa using ha⟩
  | cons x t ih =>
    intro acc qa ha hall
    obtain ⟨qx, hqx⟩ := Option.isSome_iff_exists.mp (hall x (List.mem_cons_self x t))
    have hstep : pyLtVal acc x = some (decide (qa < qx)) := pyLtVal_numeric acc x qa qx ha hqx
    have hnext : pyNumQ (if decide (qa < qx) then x else acc) = some (max qa qx) := by
      by_cases hlt : qa < qx
      · simp [hlt, hqx, max_eq_right (le_of_lt hlt)]
      · simp [hlt, ha, max_eq_left (le_of_not_lt hlt)]
    obtain ⟨v, hv, hnum⟩ := ih (if decide (qa < qx) then x else acc) (max qa qx) hnext
      (fun e he => hall e (List.mem_cons_of_mem x he))
    refine ⟨v, ?_, ?_⟩
    · simp only [List.foldlM, hstep, Option.bind_eq_bind, Option.some_bind, Option.map_some]
      exact hv
    · rw [hnum]
      simp [List.filterMap_cons, hqx]

theorem pyMinVal_numeric (lst : List PyVal) (hne : lst ≠ [])
    (hall : ∀ e ∈ lst, (pyNumQ e).isSome = true) :
    ∃ v, pyMinVal lst = some v ∧ pyFloat v = some (listMinQ (lst.filterMap pyNumQ)) := by
  cases lst with
  | nil => exact absurd rfl hne
  | cons x xs =>
    obtain ⟨qx, hqx⟩ := Option.isSome_iff_exists.mp (hall x (List.mem_cons_self x xs))
    obtain ⟨v, hv, hnum⟩ := pyMinFold_numeric xs x qx hqx
      (fun e he => hall e (List.mem_cons_of_mem x he))
    refine ⟨v, hv, ?_⟩
    rw [pyFloat_of_pyNumQ v _ hnum]
    simp [listMinQ, List.filterMap_cons, hqx]

theorem pyMaxVal_numeric (lst : List PyVal) (hne : lst ≠ [])
    (hall : ∀ e ∈ lst, (pyNumQ e).isSome = true) :
    ∃ v, pyMaxVal lst = some v ∧ pyFloat v = some (listMaxQ (lst.filterMap pyNumQ)) := by
  cases lst with
  | nil => exact absurd rfl hne
  | cons x xs =>
    obtain ⟨qx, hqx⟩ := Option.isSome_iff_exists.mp (hall x (List.mem_cons_self x xs))
    obtain ⟨v, hv, hnum⟩ := pyMaxFold_numeric xs x qx hqx
      (fun e he => hall e (List.mem_cons_of_mem x he))
    refine ⟨v, hv, ?_⟩
    rw [pyFloat_of_pyNumQ v _ hnum]
    simp [listMaxQ, List.filterMap_cons, hqx]

theorem colMin_numeric (lst : List PyVal) (hne : lst ≠ [])
    (hall : ∀ e ∈ lst, (pyNumQ e).isSome = true) :
    colMin lst = .ok (listMinQ (lst.filterMap pyNumQ)) := by
  unfold colMin
  rw [if_neg (by simp [hne])]
  obtain ⟨v, hv, hf⟩ := pyMinVal_numeric lst hne hall
  rw [hv]
  dsimp only
  rw [hf]

theorem colMax_numeric (lst : List PyVal) (hne : lst ≠ [])
    (hall : ∀ e ∈ lst, (pyNumQ e).isSome = true) :
    colMax lst = .ok (listMaxQ (lst.filterMap pyNumQ)) := by
  unfold colMax
  rw [if_neg (by simp [hne])]
  obtain ⟨v, hv, hf⟩ := pyMaxVal_numeric lst hne hall
  rw [hv]
  dsimp only
  rw [hf]

theorem mapM_except_congr_ok {α β ε : Type} (f : α → Except ε β) (g : α → β) :
    ∀ (l : List α), (∀ a ∈ l, f a = .ok (g a)) → l.mapM f = .ok (l.map g) := by
  intro l
  induction l with
  | nil => exact fun _ => rfl
  | cons a t ih =>
    intro h
    have ha := h a (List.mem_cons_self a t)
    have ht := ih (fun x hx => h x (List.mem_cons_of_mem a hx))
    rw [← List.mapM'_eq_mapM] at ht ⊢
    simp only [List.mapM', ha, ht]
    rfl

theorem arrayLen_pyIndex (n : Nat) (r : FieldRec) (h : arrayLenRec n r = true)
    (i : Nat) (hi : i < n) : ∃ v, pyIndex r.value i = some v := by
  unfold arrayLenRec at h
  cases hval : r.value <;> rw [hval] at h <;> simp at h
  case plist vs =>
    exact ⟨vs.get ⟨i, lt_of_lt_of_le hi h⟩, by simp [pyIndex, List.get?_eq_get]⟩

theorem arrayNum_pyIndex (n : Nat) (r : FieldRec) (hl : arrayLenRec n r = true)
    (hn : arrayNumRec n r = true) (i : Nat) (hi : i < n) :
    ∃ v, pyIndex r.value i = some v ∧ (pyNumQ v).isSome = true := by
  unfold arrayLenRec at hl
  unfold arrayNumRec at hn
  cases hval : r.value <;> rw [hval] at hl hn <;> simp at hl
  case plist vs =>
    have hilen : i < vs.length := lt_of_lt_of_le hi hl
    refine ⟨vs.get ⟨i, hilen⟩, by simp [pyIndex, List.get?_eq_get], ?_⟩
    have hmem : vs.get ⟨i, hilen⟩ ∈ vs.take n := by
      have hg : (vs.take n).get? i = some (vs.get ⟨i, hilen⟩) := by
        rw [List.get?_take hi]
        exact List.get?_eq_get hilen
      exact List.get?_mem hg
    exact List.all_eq_true.mp hn _ hmem

theorem column_filterMap (n i : Nat) (hi : i < n) :
    ∀ (alt : List FieldRec), alt.all (arrayLenRec n) = true →
      alt.all (arrayNumRec n) = true →
      (alt.map (fun r => (pyIndex r.value i).getD (.pint 0))).filterMap pyNumQ =
        specColVals alt i := by
  intro alt
  induction alt with
  | nil => exact fun _ _ => rfl
  | cons r rest ih =>
    intro hlen hnum
    rw [List.all_cons, Bool.and_eq_true] at hlen hnum
    obtain ⟨v, hv, hnumv⟩ := arrayNum_pyIndex n r hlen.1 hnum.1 i hi
    obtain ⟨q, hq⟩ := Option.isSome_iff_exists.mp hnumv
    show ((fun r => (pyIndex r.value i).getD (.pint 0)) r ::
      rest.map (fun r => (pyIndex r.value i).getD (.pint 0))).filterMap pyNumQ = _
    unfold specColVals
    rw [List.filterMap_cons, List.filterMap_cons]
    dsimp only
    rw [hv]
    simp only [Option.getD_some, Option.some_bind, hq]
    rw [ih hlen.2 hnum.2]
    rfl

theorem column_numeric (n i : Nat) (hi : i < n) (alt : List FieldRec)
    (hlen : alt.all (arrayLenRec n) = true) (hnum : alt.all (arrayNumRec n) = true) :
    ∀ e ∈ alt.map (fun r => (pyIndex r.value i).getD (.pint 0)),
      (pyNumQ e).isSome = true := by
  intro e he
  obtain ⟨r, hr, rfl⟩ := List.mem_map.mp he
  obtain ⟨v, hv, hnumv⟩ := arrayNum_pyIndex n r (List.all_eq_true.mp hlen r hr)
    (List.all_eq_true.mp hnum r hr) i hi
  rw [hv]
  simpa using hnumv

theorem valueColumns_ok (alt : List FieldRec) (n : Nat)
    (hv : ∀ r ∈ alt, ∀ i, i < n → ∃ v, pyIndex r.value i = some v) :
    valueColumns alt n = .ok ((List.range n).map (fun i =>
      alt.map (fun r => (pyIndex r.value i).getD (.pint 0)))) := by
  unfold valueColumns
  apply mapM_except_congr_ok
  intro i hi
  apply mapM_except_congr_ok
  intro r hr
  obtain ⟨v, hvi⟩ := hv r hr i (List.mem_range.mp hi)
  rw [hvi]
  rfl

/-- C7 (amended): for a field whose first matching schema row is a fixed
array (`"array of X"` with `elementCount > 0`) whose observed declared-type
mode equals the row type, the final `minSize`/`maxSize` are
`elementCount`-long lists holding the 3-decimal-rounded floor division of
the scalar (model-or-fallback) size bound by `elementCount`; when the base
type is one of the numeric spellings and the SEGMENT's occurrences carry
numeric element lists, `minValue`/`maxValue` are `elementCount`-long lists
whose i-th entries are the 3-decimal-rounded min/max over the segment's
occurrences' i-th element values; when the base type is not numeric, both
value lists are null. -/
theorem c7_fixed_array_expansion (schema : List FieldSpec) (le : Nat → String) (fn : String)
    (stats alt : List FieldRec) (pred : Pred) (d : FieldDpi) (row : FieldSpec)
    (hrow : schema.find? (fun r => r.name = fn) = some row)
    (harr : startsWithStr row.type "array of " = true)
    (hne : 0 < row.num_elements)
    (hmode : aggTypeOf stats = row.type)
    (hlen : alt.all (arrayLenRec row.num_elements.toNat) = true)
    (halt : alt ≠ [])
    (hok : synthesizeOne schema le fn stats alt pred = .ok d) :
    d.min_size = .list (List.replicate row.num_elements.toNat
      (round3 (floorDivQ (scalarMinSize alt pred) row.num_elements))) ∧
    d.max_size = .list (List.replicate row.num_elements.toNat
      (round3 (floorDivQ (scalarMaxSize alt pred) row.num_elements))) ∧
    (row.type ∈ ["array of int", "array of float", "array of double", "array of long"] →
      alt.all (arrayNumRec row.num_elements.toNat) = true →
      d.min_value = some (.list ((List.range row.num_elements.toNat).map (fun i =>
        round3 (listMinQ (specColVals alt i))))) ∧
      d.max_value = some (.list ((List.range row.num_elements.toNat).map (fun i =>
        round3 (listMaxQ (specColVals alt i)))))) ∧
    (lowerStr (dropStr row.type 9) ∉ numericBases →
      d.min_value = none ∧ d.max_value = none) := by
  obtain ⟨bc, row2, sz, hbc, hrow2, hsz, rfl⟩ :=
    synthesizeOne_ok_elim schema le fn stats alt pred d hok
  rw [hrow] at hrow2
  cases hrow2
  have hvidx : ∀ r ∈ alt, ∀ i, i < row.num_elements.toNat →
      ∃ v, pyIndex r.value i = some v :=
    fun r hr i hi => arrayLen_pyIndex _ r (List.all_eq_true.mp hlen r hr) i hi
  have hvc := valueColumns_ok alt row.num_elements.toNat hvidx
  have hconcrete : row.type ∈
        ["array of int", "array of float", "array of double", "array of long"] →
      lowerStr (dropStr row.type 9) ∈ numericBases ∧ numericCheck row.type = true ∧
        row.type ≠ "bitfield" := by
    intro ht4
    simp only [List.mem_cons, List.not_mem_nil, or_false] at ht4
    rcases ht4 with h | h | h | h <;> rw [h] <;> exact ⟨by decide, by decide, by decide⟩
  have hft : row.type ≠ "bitfield" → finalTypeOf le stats pred = row.type := by
    intro hbf
    unfold finalTypeOf
    rw [hmode, if_pos hbf]
  simp only [sizesValuesOf] at hsz
  rw [if_pos ⟨harr, hne⟩, hvc] at hsz
  dsimp only at hsz
  by_cases hb : lowerStr (dropStr row.type 9) ∈ numericBases
  · rw [if_pos hb] at hsz
    cases hmins : ((List.range row.num_elements.toNat).map (fun i =>
        alt.map (fun r => (pyIndex r.value i).getD (.pint 0)))).mapM colMin with
    | error e =>
      rw [hmins] at hsz
      simp at hsz
    | ok mins =>
      rw [hmins] at hsz
      cases hmaxs : ((List.range row.num_elements.toNat).map (fun i =>
          alt.map (fun r => (pyIndex r.value i).getD (.pint 0)))).mapM colMax with
      | error e =>
        rw [hmaxs] at hsz
        simp at hsz
      | ok maxs =>
        rw [hmaxs] at hsz
        dsimp only at hsz
        have hvals : ∀ (hnum : alt.all (arrayNumRec row.num_elements.toNat) = true),
            mins = (List.range row.num_elements.toNat).map
              (fun i => listMinQ (specColVals alt i)) ∧
            maxs = (List.range row.num_elements.toNat).map
              (fun i => listMaxQ (specColVals alt i)) := by
          intro hnum
          constructor
          · have hcong := mapM_except_congr_ok colMin
              (fun c => listMinQ (c.filterMap pyNumQ))
              ((List.range row.num_elements.toNat).map (fun i =>
                alt.map (fun r => (pyIndex r.value i).getD (.pint 0))))
              (by
                intro c hc
                obtain ⟨i, hi, rfl⟩ := List.mem_map.mp hc
                exact colMin_numeric _ (by simp [halt])
                  (column_numeric _ i (List.mem_range.mp hi) alt hlen hnum))
            rw [hmins] at hcong
            have he := Except.ok.inj hcong
            rw [he, List.map_map]
            apply List.map_congr_left
            intro i hi
            dsimp only [Function.comp]
            rw [column_filterMap _ i (List.mem_range.mp hi) alt hlen hnum]
          · have hcong := mapM_except_congr_ok colMax
              (fun c => listMaxQ (c.filterMap pyNumQ))
              ((List.range row.num_elements.toNat).map (fun i =>
                alt.map (fun r => (pyIndex r.value i).getD (.pint 0))))
              (by
                intro c hc
                obtain ⟨i, hi, rfl⟩ := List.mem_map.mp hc
                exact colMax_numeric _ (by simp [halt])
                  (column_numeric _ i (List.mem_range.mp hi) alt hlen hnum))
            rw [hmaxs] at hcong
            have he := Except.ok.inj hcong
            rw [he, List.map_map]
            apply List.map_congr_left
            intro i hi
            dsimp only [Function.comp]
            rw [column_filterMap _ i (List.mem_range.mp hi) alt hlen hnum]
        by_cases hch : numericCheck (finalTypeOf le stats pred) = true
        · rw [if_pos hch] at hsz
          cases hsz
          refine ⟨by simp [roundNL, List.map_replicate],
            by simp [roundNL, List.map_replicate], ?_, fun hb2 => absurd hb hb2⟩
          intro ht4 hnum
          obtain ⟨hmins_eq, hmaxs_eq⟩ := hvals hnum
          constructor
          · show (some (NumOrList.list mins)).map roundNL = _
            rw [hmins_eq]
            simp [roundNL, List.map_map, Function.comp]
          · show (some (NumOrList.list maxs)).map roundNL = _
            rw [hmaxs_eq]
            simp [roundNL, List.map_map, Function.comp]
        · rw [if_neg hch] at hsz
          cases hsz
          refine ⟨by simp [roundNL, List.map_replicate],
            by simp [roundNL, List.map_replicate], ?_, fun hb2 => absurd hb hb2⟩
          intro ht4 _
          exfalso
          obtain ⟨_, hnc, hbf⟩ := hconcrete ht4
          exact hch (by rw [hft hbf]; exact hnc)
  · rw [if_neg hb] at hsz
    dsimp only at hsz
    by_cases hch : numericCheck (finalTypeOf le stats pred) = true
    · rw [if_pos hch] at hsz
      cases hsz
      refine ⟨by simp [roundNL, List.map_replicate],
        by simp [roundNL, List.map_replicate], ?_, fun _ => ⟨rfl, rfl⟩⟩
      intro ht4 _
      exact absurd (hconcrete ht4).1 hb
    · rw [if_neg hch] at hsz
      cases hsz
      refine ⟨by simp [roundNL, List.map_replicate],
        by simp [roundNL, List.map_replicate], ?_, fun _ => ⟨rfl, rfl⟩⟩
      intro ht4 _
      exact absurd (hconcrete ht4).1 hb

def c7exRec (sz : Int) (q : ℚ) : FieldRec :=
  { field_name := "a", size := sz, value := .plist [.pfloat q],
    field_type := "array of float", num_elements := some 1 }

/-- Four occurrences of a dynamic one-element float array: two of size 4
with element values 10.1234 and 20, two of size 400 with element values 1
and 2, so size clustering makes indices 0 and 1 the main segment. -/
def c7exStats : List FieldRec :=
  [c7exRec 4 (101234 / 10000), c7exRec 4 20, c7exRec 400 1, c7exRec 400 2]

def c7exSchema : List FieldSpec :=
  [{ name := "a", size := 0, type := "array of float", size_field := "", num_elements := 1,
     is_bitfield := false }]

def c7exPred : Pred :=
  { is_dynamic := [1], min_size := some 4, max_size := some 4, min_value := some 0,
    max_value := some 0, field_type := [1], bit_count := some 0 }

/-- C7 counterexample: the `"50%"` segment's per-element `minValue` is
`[10.123]` — the 3-decimal rounding of the minimum over that SEGMENT's
element values — which differs both from the minimum over all occurrences
(`1`) and from the exact segment minimum (`10.1234`), refuting the claim
that the entries equal the exact min over all occurrences. -/
theorem c7_counterexample :
    segment_stats c7exStats = some [("50%", [0, 1]), ("100%", [0, 1, 2, 3])] ∧
    (synthesizeField c7exSchema (fun _ => c7exPred) (fun _ => "float") "a" c7exStats).map
      (fun l => (l.lookup "50%").map (fun d => d.min_value)) =
      .ok (some (some (.list [10123 / 1000]))) ∧
    listMinQ (specColVals c7exStats 0) = 1 ∧
    listMinQ (specColVals [c7exRec 4 (101234 / 10000), c7exRec 4 20] 0) = 101234 / 10000 ∧
    (10123 / 1000 : ℚ) ≠ 1 ∧ (10123 / 1000 : ℚ) ≠ 101234 / 10000 := by
  exact ⟨by with_unfolding_all rfl, by with_unfolding_all rfl, by with_unfolding_all rfl,
    by with_unfolding_all rfl, by with_unfolding_all decide, by with_unfolding_all decide⟩

def c7wSchema : List FieldSpec :=
  [{ name := "a", size := 8, type := "array of int", size_field := "", num_elements := 2,
     is_bitfield := false }]

def c7wRec : FieldRec :=
  { field_name := "a", size := 8, value := .plist [.pint 3, .pint 7],
    field_type := "array of int", num_elements := some 2 }

def c7wPred : Pred :=
  { is_dynamic := [1], min_size := some 8, max_size := some 8, min_value := some 3,
    max_value := some 7, field_type := [1], bit_count := some 0 }

def c7wDpi : FieldDpi :=
  { is_dynamic_array := false, min_size := .list [4, 4], max_size := .list [4, 4],
    min_value := some (.list [3, 7]), max_value := some (.list [3, 7]),
    size_defining_field := none, field_type := "array of int", bitfields_count := none }

theorem c7_witness :
    (c7wSchema.find? (fun r => r.name = "a") = some (c7wSchema.getD 0 c10zeroRow) ∧
      0 < (2 : Int) ∧ [c7wRec] ≠ []) ∧
    (c7wDpi.min_size = .list (List.replicate (2 : Int).toNat
      (round3 (floorDivQ (scalarMinSize [c7wRec] c7wPred) 2))) ∧
    c7wDpi.max_size = .list (List.replicate (2 : Int).toNat
      (round3 (floorDivQ (scalarMaxSize [c7wRec] c7wPred) 2))) ∧
    (("array of int" : String) ∈
        ["array of int", "array of float", "array of double", "array of long"] →
      [c7wRec].all (arrayNumRec (2 : Int).toNat) = true →
      c7wDpi.min_value = some (.list (((List.range (2 : Int).toNat)).map (fun i =>
        round3 (listMinQ (specColVals [c7wRec] i))))) ∧
      c7wDpi.max_value = some (.list (((List.range (2 : Int).toNat)).map (fun i =>
        round3 (listMaxQ (specColVals [c7wRec] i)))))) ∧
    (lowerStr (dropStr "array of int" 9) ∉ numericBases →
      c7wDpi.min_value = none ∧ c7wDpi.max_value = none)) := by
  refine ⟨⟨rfl, by decide, List.cons_ne_nil _ _⟩, ?_⟩
  have h := c7_fixed_array_expansion c7wSchema (fun _ => "int") "a" [c7wRec] [c7wRec]
    c7wPred c7wDpi (c7wSchema.getD 0 c10zeroRow) rfl (by decide) (by decide)
    (by with_unfolding_all rfl) (by decide) (List.cons_ne_nil _ _)
    (by with_unfolding_all rfl)
  exact h

end DeepScan